import Mathlib

set_option allowUnsafeReducibility true in
attribute [semireducible] Rat.add Rat.sub Rat.mul Rat.div Rat.neg Rat.inv

/-!
Shallow embedding of `src/Quadtree/quadtree/draw_tree.py`.

The layout core consists of `DrawTree.__init__` (mirror construction),
`assign` (Pass 1: abstract coordinate assignment using a per-depth
frontier dictionary), `adjust` (Pass 2: propagation of deferred shifts)
and `layout` (runs both passes).  Python numbers (ints and the floats
produced by the `/ 2.0` midpoint) are modelled by `ℚ`; all values the
algorithm manipulates are dyadic rationals, and the spec describes the
column as a real number.  The mutable `nexts` defaultdict (depth ↦ next
free column, default `0`) is modelled by a list of rationals indexed by
depth, with absent entries read as `0`; mutation is modelled by explicit
state passing.
-/

/--
Domain quadtree node, as the layout code uses it: a node exposes a
4-slot `children` array indexed by quadrant.  `empty` models an
unoccupied slot (Python `None`); `mk c0 c1 c2 c3` a node with four
quadrant child slots.
-/
inductive QTNode : Type where
  | empty : QTNode
  | mk (c0 c1 c2 c3 : QTNode) : QTNode
deriving DecidableEq, Repr

/-- Modelled from the spec: the quadrant identifiers come from
`quadtree/util.py`, which is not under `src/`; the spec fixes the
traversal order NW, NE, SW, SE as the four child array indices. -/
def NW : ℕ := 0

/-- Modelled from the spec: second quadrant index. -/
def NE : ℕ := 1

/-- Modelled from the spec: third quadrant index. -/
def SW : ℕ := 2

/-- Modelled from the spec: fourth quadrant index. -/
def SE : ℕ := 3

/-- Child slot of a domain node at a quadrant index. -/
def QTNode.child : QTNode → ℕ → QTNode
  | .empty, _ => .empty
  | .mk c0 _ _ _, 0 => c0
  | .mk _ c1 _ _, 1 => c1
  | .mk _ _ c2 _, 2 => c2
  | .mk _ _ _ c3, _ => c3

/--
Mirror node built by `DrawTree.__init__`: fields `x` (column), `y`
(depth), `mod` (pending shift), `node` (the opaque reference to the
domain node) and the four quadrant child slots.  `empty` models an
unoccupied slot (Python `None`); the passes skip it.
-/
inductive DrawTree : Type where
  | empty : DrawTree
  | mk (x : ℚ) (y : ℕ) (mod : ℚ) (node : QTNode) (c0 c1 c2 c3 : DrawTree) : DrawTree
deriving DecidableEq, Repr

/-- The `x` field (column).  On an unoccupied slot this returns the
construction sentinel `-1`; the passes never read it there. -/
def DrawTree.x : DrawTree → ℚ
  | .empty => -1
  | .mk x _ _ _ _ _ _ _ => x

/-- The `y` field (depth). -/
def DrawTree.y : DrawTree → ℕ
  | .empty => 0
  | .mk _ y _ _ _ _ _ _ => y

/-- The `mod` field (pending shift for the descendants). -/
def DrawTree.mod : DrawTree → ℚ
  | .empty => 0
  | .mk _ _ m _ _ _ _ _ => m

/-- The `node` field (opaque reference to the mirrored domain node). -/
def DrawTree.node : DrawTree → QTNode
  | .empty => .empty
  | .mk _ _ _ nd _ _ _ _ => nd

/-- Whether a child slot is unoccupied (Python `None`). -/
def DrawTree.isEmpty : DrawTree → Bool
  | .empty => true
  | .mk _ _ _ _ _ _ _ _ => false

/-- Child slot of a mirror node at a quadrant index. -/
def DrawTree.child : DrawTree → ℕ → DrawTree
  | .empty, _ => .empty
  | .mk _ _ _ _ c0 _ _ _, 0 => c0
  | .mk _ _ _ _ _ c1 _ _, 1 => c1
  | .mk _ _ _ _ _ _ c2 _, 2 => c2
  | .mk _ _ _ _ _ _ _ c3, _ => c3

/--
`DrawTree.__init__`: recursively construct the mirror of a domain node
at a given depth: `x = -1` (sentinel), `y = depth`, `mod = 0`, keep the
reference to the domain node, and mirror each occupied quadrant slot at
`depth + 1`.
-/
def build : QTNode → ℕ → DrawTree
  | .empty, _ => .empty
  | .mk c0 c1 c2 c3, d =>
      .mk (-1) d 0 (.mk c0 c1 c2 c3)
        (build c0 (d + 1)) (build c1 (d + 1)) (build c2 (d + 1)) (build c3 (d + 1))

/-- Read the frontier dictionary at a depth (defaultdict: absent ↦ 0). -/
def getN : List ℚ → ℕ → ℚ
  | [], _ => 0
  | v :: _, 0 => v
  | _ :: t, d + 1 => getN t d

/-- Write the frontier dictionary at a depth, materializing absent
entries at their default `0`. -/
def setN : List ℚ → ℕ → ℚ → List ℚ
  | [], 0, v => [v]
  | [], d + 1, v => 0 :: setN [] d v
  | _ :: t, 0, v => v :: t
  | a :: t, d + 1, v => a :: setN t d v

/-- One step of the running minimum of children's columns that
`assign` folds from the sentinel `99999`: an unoccupied slot is
skipped, an occupied one contributes its assigned column `r.x`. -/
def stepMin (c r : DrawTree) (a : ℚ) : ℚ :=
  if c.isEmpty then a else min a r.x

/-- One step of the running maximum of children's columns that
`assign` folds from the sentinel `-99999`. -/
def stepMax (c r : DrawTree) (b : ℚ) : ℚ :=
  if c.isEmpty then b else max b r.x

/-- The post-children part of `DrawTree.assign`: given the node's
placed column `x`, its preserved `mod` `m`, the assigned children and
the folded minimum `a3` / maximum `b3` of their columns, apply the
centering rule: if no child was seen (`a3` still the sentinel) leave
everything; if the children's midpoint is left of `x`, record the
deferred shift in `mod` and reserve room at the child depth; if it is
right of `x`, move the node onto the midpoint and bump this depth's
frontier. -/
def tailA (x : ℚ) (depth : ℕ) (m : ℚ) (nd : QTNode)
    (c0' c1' c2' c3' : DrawTree) (a3 b3 : ℚ) (st : List ℚ) :
    DrawTree × List ℚ :=
  if a3 ≠ 99999 then
    if (a3 + b3) / 2 < x then
      (.mk x depth (x - (a3 + b3) / 2) nd c0' c1' c2' c3',
        setN st (depth + 1) (getN st (depth + 1) + (x - (a3 + b3) / 2)))
    else if x < (a3 + b3) / 2 then
      (.mk ((a3 + b3) / 2) depth m nd c0' c1' c2' c3',
        setN st depth (max (getN st depth + 2) ((a3 + b3) / 2 + 2)))
    else
      (.mk x depth m nd c0' c1' c2' c3', st)
  else
    (.mk x depth m nd c0' c1' c2' c3', st)

/--
Pass 1, `DrawTree.assign`: place the node at the frontier of its depth
and advance that frontier by 2; recursively assign the four quadrant
children in order while folding the minimum and maximum of the visited
children's columns from the sentinels `99999` and `-99999`; then apply
the centering rule (`tailA`).  Returns the updated node and frontier;
an unoccupied slot is skipped (state unchanged).
-/
def assign : DrawTree → ℕ → List ℚ → DrawTree × List ℚ
  | .empty, _, nexts => (.empty, nexts)
  | .mk _ _ m nd c0 c1 c2 c3, depth, nexts =>
      let x := getN nexts depth
      let r0 := assign c0 (depth + 1) (setN nexts depth (x + 2))
      let r1 := assign c1 (depth + 1) r0.2
      let r2 := assign c2 (depth + 1) r1.2
      let r3 := assign c3 (depth + 1) r2.2
      tailA x depth m nd r0.1 r1.1 r2.1 r3.1
        (stepMin c3 r3.1 (stepMin c2 r2.1 (stepMin c1 r1.1 (stepMin c0 r0.1 99999))))
        (stepMax c3 r3.1 (stepMax c2 r2.1 (stepMax c1 r1.1 (stepMax c0 r0.1 (-99999)))))
        r3.2

/--
Pass 2, `DrawTree.adjust`: add the accumulated shift to the node's
column, then recurse into each occupied child with the accumulation
increased by this node's `mod`.
-/
def adjust : DrawTree → ℚ → DrawTree
  | .empty, _ => .empty
  | .mk x y m nd c0 c1 c2 c3, modsum =>
      .mk (x + modsum) y m nd
        (adjust c0 (modsum + m)) (adjust c1 (modsum + m))
        (adjust c2 (modsum + m)) (adjust c3 (modsum + m))

/-- The tree returned by Pass 1 when run as `layout` runs it: on the
fresh mirror, from depth 0, with the empty (all-zero) frontier. -/
def assigned (q : QTNode) : DrawTree :=
  (assign (build q 0) 0 []).1

/-- `DrawTree.layout` on the fresh mirror of a domain tree: build, run
`assign(0, defaultdict(int))`, then `adjust(0)`. -/
def layout (q : QTNode) : DrawTree :=
  adjust (assigned q) 0

/-- All (occupied) nodes of a mirror tree in quadrant-traversal
(pre-order) order: the node itself, then the slots in index order. -/
def preorder : DrawTree → List DrawTree
  | .empty => []
  | .mk x y m nd c0 c1 c2 c3 =>
      .mk x y m nd c0 c1 c2 c3 ::
        (preorder c0 ++ preorder c1 ++ preorder c2 ++ preorder c3)

/-- Columns of the nodes at one depth, in quadrant-traversal order. -/
def atDepth (t : DrawTree) (d : ℕ) : List ℚ :=
  ((preorder t).filter (fun n => n.y == d)).map DrawTree.x

/-- Every consecutive pair of the list is at least 2 apart. -/
def gap2 : List ℚ → Bool
  | [] => true
  | [_] => true
  | a :: b :: t => decide (a + 2 ≤ b) && gap2 (b :: t)

/-- Columns of a node's occupied children, in quadrant order. -/
def DrawTree.childXs : DrawTree → List ℚ
  | .empty => []
  | .mk _ _ _ _ c0 c1 c2 c3 =>
      (([c0, c1, c2, c3].filter (fun c => !c.isEmpty)).map DrawTree.x)

/-- A leaf domain node: all four quadrant slots unoccupied. -/
def leafQ : QTNode := .mk .empty .empty .empty .empty

/-- Scenario B domain tree: a root with children only at NW and SE. -/
def scenarioB : QTNode := .mk leafQ .empty .empty leafQ

/-- The 9-node domain tree on which the global same-depth spacing
claim fails: the root has a leaf at NE, at SW a node whose SW child
has a single NW leaf, and at SE a node whose NW child has leaves at
SW and SE. -/
def cexC1 : QTNode :=
  .mk .empty
    leafQ
    (.mk .empty .empty (.mk leafQ .empty .empty .empty) .empty)
    (.mk (.mk .empty .empty leafQ leafQ) .empty .empty .empty)

/-- Scenario D-like domain tree: the root has a leaf at NW and at NE a
node with one SW child that carries a single NW leaf; the NE node's
children sit left of its claimed slot, so its `mod` becomes positive. -/
def scenarioD : QTNode :=
  .mk leafQ (.mk .empty .empty (.mk leafQ .empty .empty .empty) .empty) .empty .empty

/-- The full quadtree of the given height: every slot occupied down to
height 0 (a leaf). -/
def full : ℕ → QTNode
  | 0 => leafQ
  | k + 1 => .mk (full k) (full k) (full k) (full k)

/-- Every occupied node of the tree keeps its occupied children at
least 2 apart (consecutive occupied children of a common parent, in
quadrant order). -/
def sibGapsOK (t : DrawTree) : Bool :=
  (preorder t).all (fun n => gap2 n.childXs)

/-- The centering condition of one node: if it has occupied children,
its column lies within the inclusive interval of its children's
columns. -/
def ctr (u : DrawTree) : Bool :=
  match u.childXs with
  | [] => true
  | v :: vs =>
      decide (List.foldl min v vs ≤ u.x) && decide (u.x ≤ List.foldl max v vs)

/-- The centering condition at every node of the tree. -/
def centeredOK (t : DrawTree) : Bool :=
  (preorder t).all ctr

/-- The centering condition of one node of the pre-adjustment tree,
anticipating that Pass 2 shifts this node's children by this node's
`mod` more than the node itself. -/
def ctrA (u : DrawTree) : Bool :=
  match u.childXs with
  | [] => true
  | v :: vs =>
      decide (List.foldl min v vs + u.mod ≤ u.x) &&
        decide (u.x ≤ List.foldl max v vs + u.mod)

/-- The anticipated centering condition at every node. -/
def centeredA (t : DrawTree) : Bool :=
  (preorder t).all ctrA

/-- No node of the (assigned) tree hits the `99999` sentinel: at every
node with occupied children, the minimum-fold seeded with `99999` that
`assign` computes is different from `99999`. -/
def noClip (t : DrawTree) : Bool :=
  (preorder t).all
    (fun n => n.childXs.isEmpty || decide (n.childXs.foldl min 99999 ≠ 99999))

/-- All `mod` fields of the tree are zero. -/
def modsZero (t : DrawTree) : Bool :=
  (preorder t).all (fun n => n.mod == 0)

/-- All `mod` fields of the tree are non-negative. -/
def modsNonneg (t : DrawTree) : Bool :=
  (preorder t).all (fun n => decide (0 ≤ n.mod))

/-- Columns of all occupied nodes in quadrant-traversal order. -/
def xList (t : DrawTree) : List ℚ :=
  (preorder t).map DrawTree.x

/-- Depths of all occupied nodes in quadrant-traversal order. -/
def yList (t : DrawTree) : List ℕ :=
  (preorder t).map DrawTree.y

/-- Every node's `y` equals its number of edges from the root of the
tree, offset by the depth at which the tree hangs: the root of `t`
has `y = d` and each occupied child's recorded depth grows by one. -/
def depthsOK : DrawTree → ℕ → Bool
  | .empty, _ => true
  | .mk _ y _ _ c0 c1 c2 c3, d =>
      (y == d) && depthsOK c0 (d + 1) && depthsOK c1 (d + 1) &&
        depthsOK c2 (d + 1) && depthsOK c3 (d + 1)

/-- The mirror tree has exactly the domain tree's quadrant-slot
occupancy at every level, and every mirror node's `node` field is the
domain subtree it was built from (so the domain tree is intact). -/
def consistent : DrawTree → QTNode → Bool
  | .empty, .empty => true
  | .mk _ _ _ nd c0 c1 c2 c3, .mk q0 q1 q2 q3 =>
      decide (nd = QTNode.mk q0 q1 q2 q3) && consistent c0 q0 &&
        consistent c1 q1 && consistent c2 q2 && consistent c3 q3
  | _, _ => false

/-- Walk a path of quadrant indices down a mirror tree. -/
def follow : DrawTree → List ℕ → DrawTree
  | t, [] => t
  | t, i :: p => follow (t.child i) p

/-- Sum of the `mod` fields of the strict ancestors of the node at the
given path (every node on the path except the final one). -/
def pathMods : DrawTree → List ℕ → ℚ
  | _, [] => 0
  | t, i :: p => t.mod + pathMods (t.child i) p

/-- The frontier offset of depth `d + i` relative to depth `d` in the
aligned frontier profile that `assign` produces on full subtrees of
height `j` (clean regime): `4 ^ j - 4 ^ (j - i)`. -/
def dlt (j i : ℕ) : ℚ :=
  4 ^ j - 4 ^ (j - i)

/-- The path (quadrant indices from the root) of the first node of the
full height-8 tree whose children all land at columns at or beyond the
sentinel `99999`, so that `assign` skips its centering. -/
def clipPath : List ℕ := [3, 0, 0, 3, 1, 1, 0]

/-- The node that Pass 1 produces at `clipPath` in the full height-8
tree: placed at column 99997 on depth 7, its four leaf children at
columns 100000–100006 on depth 8; the min-fold over the children
returns the sentinel 99999, so the node skips centering and keeps
`mod = 0` although its children all sit to its right. -/
def clipNode : DrawTree :=
  .mk 99997 7 0 (full 1)
    (.mk 100000 8 0 leafQ .empty .empty .empty .empty)
    (.mk 100002 8 0 leafQ .empty .empty .empty .empty)
    (.mk 100004 8 0 leafQ .empty .empty .empty .empty)
    (.mk 100006 8 0 leafQ .empty .empty .empty .empty)

/-! ### Frontier dictionary lemmas -/

theorem getN_setN (d : ℕ) (l : List ℚ) (v : ℚ) (k : ℕ) :
    getN (setN l d v) k = if k = d then v else getN l k := by
  induction d generalizing l k with
  | zero =>
    cases l <;> cases k <;> simp [setN, getN]
  | succ d ih =>
    cases l with
    | nil =>
      cases k with
      | zero => simp [setN, getN]
      | succ k => simpa [setN, getN] using ih [] k
    | cons a t =>
      cases k with
      | zero => simp [setN, getN]
      | succ k => simpa [setN, getN] using ih t k

theorem getN_nil (k : ℕ) : getN [] k = 0 := by
  cases k <;> rfl

/-! ### Basic facts about the passes -/

theorem adjust_mk (x : ℚ) (y : ℕ) (m : ℚ) (nd : QTNode)
    (c0 c1 c2 c3 : DrawTree) (ms : ℚ) :
    adjust (.mk x y m nd c0 c1 c2 c3) ms =
      .mk (x + ms) y m nd (adjust c0 (ms + m)) (adjust c1 (ms + m))
        (adjust c2 (ms + m)) (adjust c3 (ms + m)) := rfl

theorem isEmpty_adjust (t : DrawTree) (ms : ℚ) :
    (adjust t ms).isEmpty = t.isEmpty := by
  cases t <;> rfl

theorem x_adjust (t : DrawTree) (ms : ℚ) (h : t.isEmpty = false) :
    (adjust t ms).x = t.x + ms := by
  cases t with
  | empty => simp [DrawTree.isEmpty] at h
  | mk x y m nd c0 c1 c2 c3 => rfl

theorem tailA_isEmpty (x : ℚ) (depth : ℕ) (m : ℚ) (nd : QTNode)
    (c0' c1' c2' c3' : DrawTree) (a3 b3 : ℚ) (st : List ℚ) :
    ((tailA x depth m nd c0' c1' c2' c3' a3 b3 st).1).isEmpty = false := by
  unfold tailA
  split_ifs <;> rfl

theorem assign_isEmpty (t : DrawTree) (d : ℕ) (nx : List ℚ) :
    ((assign t d nx).1).isEmpty = t.isEmpty := by
  cases t with
  | empty => rfl
  | mk x y m nd c0 c1 c2 c3 =>
    simp only [assign]
    rw [tailA_isEmpty]
    rfl

theorem tailA_mono (x : ℚ) (depth : ℕ) (m : ℚ) (nd : QTNode)
    (c0' c1' c2' c3' : DrawTree) (a3 b3 : ℚ) (st : List ℚ) (k : ℕ) :
    getN st k ≤ getN (tailA x depth m nd c0' c1' c2' c3' a3 b3 st).2 k := by
  unfold tailA
  split_ifs with h1 h2 h3
  · rw [getN_setN]
    split_ifs with hk
    · subst hk
      exact le_add_of_nonneg_right (le_of_lt (sub_pos.mpr h2))
    · exact le_refl _
  · rw [getN_setN]
    split_ifs with hk
    · subst hk
      exact le_trans (le_add_of_nonneg_right (by norm_num)) (le_max_left _ _)
    · exact le_refl _
  · exact le_refl _
  · exact le_refl _

theorem assign_mono (t : DrawTree) (d : ℕ) (nx : List ℚ) (k : ℕ) :
    getN nx k ≤ getN (assign t d nx).2 k := by
  induction t generalizing d nx with
  | empty => exact le_refl _
  | mk x y m nd c0 c1 c2 c3 ih0 ih1 ih2 ih3 =>
    simp only [assign]
    refine le_trans ?_ (tailA_mono _ _ _ _ _ _ _ _ _ _ _ _)
    refine le_trans ?_ (ih3 _ _)
    refine le_trans ?_ (ih2 _ _)
    refine le_trans ?_ (ih1 _ _)
    refine le_trans ?_ (ih0 _ _)
    rw [getN_setN]
    split_ifs with hk
    · subst hk
      exact le_add_of_nonneg_right (by norm_num)
    · exact le_refl _

theorem tailA_x_ge (x : ℚ) (depth : ℕ) (m : ℚ) (nd : QTNode)
    (c0' c1' c2' c3' : DrawTree) (a3 b3 : ℚ) (st : List ℚ) :
    x ≤ (tailA x depth m nd c0' c1' c2' c3' a3 b3 st).1.x := by
  unfold tailA
  split_ifs with h1 h2 h3
  · exact le_refl _
  · exact le_of_lt h3
  · exact le_refl _
  · exact le_refl _

theorem tailA_reserve (x : ℚ) (depth : ℕ) (m : ℚ) (nd : QTNode)
    (c0' c1' c2' c3' : DrawTree) (a3 b3 : ℚ) (st : List ℚ)
    (hd : x + 2 ≤ getN st depth) :
    (tailA x depth m nd c0' c1' c2' c3' a3 b3 st).1.x + 2 ≤
      getN (tailA x depth m nd c0' c1' c2' c3' a3 b3 st).2 depth := by
  unfold tailA
  split_ifs with h1 h2 h3
  · rw [getN_setN]
    split_ifs with hk
    · omega
    · exact hd
  · rw [getN_setN]
    simp only [if_pos rfl]
    exact le_max_right _ _
  · exact hd
  · exact hd

theorem assign_x_ge (t : DrawTree) (d : ℕ) (nx : List ℚ)
    (h : t.isEmpty = false) : getN nx d ≤ (assign t d nx).1.x := by
  cases t with
  | empty => simp [DrawTree.isEmpty] at h
  | mk x y m nd c0 c1 c2 c3 =>
    simp only [assign]
    exact tailA_x_ge _ _ _ _ _ _ _ _ _ _ _

theorem assign_reserve (t : DrawTree) (d : ℕ) (nx : List ℚ)
    (h : t.isEmpty = false) :
    (assign t d nx).1.x + 2 ≤ getN (assign t d nx).2 d := by
  cases t with
  | empty => simp [DrawTree.isEmpty] at h
  | mk x y m nd c0 c1 c2 c3 =>
    simp only [assign]
    refine tailA_reserve _ _ _ _ _ _ _ _ _ _ _ ?_
    refine le_trans ?_ (assign_mono c3 _ _ _)
    refine le_trans ?_ (assign_mono c2 _ _ _)
    refine le_trans ?_ (assign_mono c1 _ _ _)
    refine le_trans ?_ (assign_mono c0 _ _ _)
    rw [getN_setN, if_pos rfl]

/-! ### Result-structure lemmas for `tailA` and `assign` -/

theorem tailA_y (x : ℚ) (depth : ℕ) (m : ℚ) (nd : QTNode)
    (c0' c1' c2' c3' : DrawTree) (a3 b3 : ℚ) (st : List ℚ) :
    (tailA x depth m nd c0' c1' c2' c3' a3 b3 st).1.y = depth := by
  unfold tailA
  split_ifs <;> rfl

theorem tailA_node (x : ℚ) (depth : ℕ) (m : ℚ) (nd : QTNode)
    (c0' c1' c2' c3' : DrawTree) (a3 b3 : ℚ) (st : List ℚ) :
    (tailA x depth m nd c0' c1' c2' c3' a3 b3 st).1.node = nd := by
  unfold tailA
  split_ifs <;> rfl

theorem tailA_children (x : ℚ) (depth : ℕ) (m : ℚ) (nd : QTNode)
    (c0' c1' c2' c3' : DrawTree) (a3 b3 : ℚ) (st : List ℚ) :
    (tailA x depth m nd c0' c1' c2' c3' a3 b3 st).1.child 0 = c0' ∧
      (tailA x depth m nd c0' c1' c2' c3' a3 b3 st).1.child 1 = c1' ∧
      (tailA x depth m nd c0' c1' c2' c3' a3 b3 st).1.child 2 = c2' ∧
      (tailA x depth m nd c0' c1' c2' c3' a3 b3 st).1.child 3 = c3' := by
  unfold tailA
  split_ifs <;> exact ⟨rfl, rfl, rfl, rfl⟩

theorem tailA_childXs (x : ℚ) (depth : ℕ) (m : ℚ) (nd : QTNode)
    (c0' c1' c2' c3' : DrawTree) (a3 b3 : ℚ) (st : List ℚ) :
    (tailA x depth m nd c0' c1' c2' c3' a3 b3 st).1.childXs =
      (([c0', c1', c2', c3'].filter (fun c => !c.isEmpty)).map DrawTree.x) := by
  unfold tailA
  split_ifs <;> rfl

theorem tailA_mod_nonneg (x : ℚ) (depth : ℕ) (m : ℚ) (nd : QTNode)
    (c0' c1' c2' c3' : DrawTree) (a3 b3 : ℚ) (st : List ℚ) (hm : 0 ≤ m) :
    0 ≤ (tailA x depth m nd c0' c1' c2' c3' a3 b3 st).1.mod := by
  unfold tailA
  split_ifs with h1 h2 h3
  · exact le_of_lt (sub_pos.mpr h2)
  · exact hm
  · exact hm
  · exact hm

theorem tailA_preorder (x : ℚ) (depth : ℕ) (m : ℚ) (nd : QTNode)
    (c0' c1' c2' c3' : DrawTree) (a3 b3 : ℚ) (st : List ℚ) :
    ∃ xx mm, preorder (tailA x depth m nd c0' c1' c2' c3' a3 b3 st).1 =
      DrawTree.mk xx depth mm nd c0' c1' c2' c3' ::
        (preorder c0' ++ preorder c1' ++ preorder c2' ++ preorder c3') := by
  unfold tailA
  split_ifs <;> exact ⟨_, _, rfl⟩

/-! ### Pre-order membership -/

theorem mem_preorder_self (t : DrawTree) (h : t.isEmpty = false) :
    t ∈ preorder t := by
  cases t with
  | empty => simp [DrawTree.isEmpty] at h
  | mk x y m nd c0 c1 c2 c3 => simp [preorder]

theorem tailA_mem (x : ℚ) (depth : ℕ) (m : ℚ) (nd : QTNode)
    (c0' c1' c2' c3' : DrawTree) (a3 b3 : ℚ) (st : List ℚ) (u : DrawTree)
    (h : u ∈ preorder c0' ∨ u ∈ preorder c1' ∨ u ∈ preorder c2' ∨
      u ∈ preorder c3') :
    u ∈ preorder (tailA x depth m nd c0' c1' c2' c3' a3 b3 st).1 := by
  obtain ⟨xx, mm, hp⟩ := tailA_preorder x depth m nd c0' c1' c2' c3' a3 b3 st
  rw [hp]
  simp only [List.mem_cons, List.mem_append]
  tauto

/-! ### `adjust` and node-level conditions -/

theorem foldl_min_map_add (vs : List ℚ) (v c : ℚ) :
    List.foldl min (v + c) (vs.map (· + c)) = List.foldl min v vs + c := by
  induction vs generalizing v with
  | nil => rfl
  | cons w ws ih =>
    simp only [List.map_cons, List.foldl_cons, min_add_add_right]
    exact ih (min v w)

theorem foldl_max_map_add (vs : List ℚ) (v c : ℚ) :
    List.foldl max (v + c) (vs.map (· + c)) = List.foldl max v vs + c := by
  induction vs generalizing v with
  | nil => rfl
  | cons w ws ih =>
    simp only [List.map_cons, List.foldl_cons, max_add_add_right]
    exact ih (max v w)

theorem childXs_adjust (t : DrawTree) (ms : ℚ) :
    (adjust t ms).childXs = t.childXs.map (· + (ms + t.mod)) := by
  cases t with
  | empty => rfl
  | mk x y m nd c0 c1 c2 c3 =>
    cases c0 <;> cases c1 <;> cases c2 <;> cases c3 <;>
      simp [DrawTree.childXs, adjust, DrawTree.isEmpty, DrawTree.x, DrawTree.mod]

theorem ctr_adjust (u : DrawTree) (ms : ℚ) : ctr (adjust u ms) = ctrA u := by
  cases u with
  | empty => rfl
  | mk x y m nd c0 c1 c2 c3 =>
    rcases h : (DrawTree.mk x y m nd c0 c1 c2 c3).childXs with _ | ⟨v, vs⟩
    · simp [ctr, ctrA, childXs_adjust, h]
    · have hx : (adjust (DrawTree.mk x y m nd c0 c1 c2 c3) ms).x = x + ms := rfl
      have hm : (DrawTree.mk x y m nd c0 c1 c2 c3).mod = m := rfl
      have hx2 : (DrawTree.mk x y m nd c0 c1 c2 c3).x = x := rfl
      simp only [ctr, ctrA, childXs_adjust, h, hm, hx, hx2, List.map_cons,
        foldl_min_map_add, foldl_max_map_add]
      have h1 : List.foldl min v vs + (ms + m) ≤ x + ms ↔
          List.foldl min v vs + m ≤ x := by
        constructor <;> intro hh <;> linarith
      have h2 : x + ms ≤ List.foldl max v vs + (ms + m) ↔
          x ≤ List.foldl max v vs + m := by
        constructor <;> intro hh <;> linarith
      simp only [h1, h2]

theorem mem_adjust (t : DrawTree) (ms : ℚ) (u : DrawTree)
    (h : u ∈ preorder t) : ∃ s, adjust u s ∈ preorder (adjust t ms) := by
  induction t generalizing ms with
  | empty => simp [preorder] at h
  | mk x y m nd c0 c1 c2 c3 ih0 ih1 ih2 ih3 =>
    simp only [preorder] at h
    rcases List.mem_cons.mp h with h | h
    · exact ⟨ms, by rw [h]; exact mem_preorder_self _ rfl⟩
    rcases List.mem_append.mp h with h | h
    on_goal 2 =>
      obtain ⟨s, hs⟩ := ih3 (ms + m) h
      exact ⟨s, by simp only [adjust_mk, preorder, List.mem_cons,
        List.mem_append]; tauto⟩
    rcases List.mem_append.mp h with h | h
    on_goal 2 =>
      obtain ⟨s, hs⟩ := ih2 (ms + m) h
      exact ⟨s, by simp only [adjust_mk, preorder, List.mem_cons,
        List.mem_append]; tauto⟩
    rcases List.mem_append.mp h with h | h
    · obtain ⟨s, hs⟩ := ih0 (ms + m) h
      exact ⟨s, by simp only [adjust_mk, preorder, List.mem_cons,
        List.mem_append]; tauto⟩
    · obtain ⟨s, hs⟩ := ih1 (ms + m) h
      exact ⟨s, by simp only [adjust_mk, preorder, List.mem_cons,
        List.mem_append]; tauto⟩

theorem centeredOK_false_of_mem (t u : DrawTree) (h : u ∈ preorder t)
    (hc : ctr u = false) : centeredOK t = false := by
  unfold centeredOK
  rw [List.all_eq_false]
  exact ⟨u, h, by simp [hc]⟩

theorem centeredOK_adjust_false (t : DrawTree) (ms : ℚ) (u : DrawTree)
    (h : u ∈ preorder t) (hcA : ctrA u = false) :
    centeredOK (adjust t ms) = false := by
  obtain ⟨s, hs⟩ := mem_adjust t ms u h
  exact centeredOK_false_of_mem _ _ hs (by rw [ctr_adjust]; exact hcA)

theorem tailA_preorder_cons (x : ℚ) (depth : ℕ) (m : ℚ) (nd : QTNode)
    (c0' c1' c2' c3' : DrawTree) (a3 b3 : ℚ) (st : List ℚ) :
    preorder (tailA x depth m nd c0' c1' c2' c3' a3 b3 st).1 =
      (tailA x depth m nd c0' c1' c2' c3' a3 b3 st).1 ::
        (preorder c0' ++ preorder c1' ++ preorder c2' ++ preorder c3') := by
  unfold tailA
  split_ifs <;> rfl

theorem all_preorder_tailA (p : DrawTree → Bool) (x : ℚ) (depth : ℕ)
    (m : ℚ) (nd : QTNode) (c0' c1' c2' c3' : DrawTree) (a3 b3 : ℚ)
    (st : List ℚ) :
    (preorder (tailA x depth m nd c0' c1' c2' c3' a3 b3 st).1).all p =
      (p (tailA x depth m nd c0' c1' c2' c3' a3 b3 st).1 &&
        ((preorder c0').all p && ((preorder c1').all p &&
          ((preorder c2').all p && (preorder c3').all p)))) := by
  rw [tailA_preorder_cons]
  simp [List.all_append, Bool.and_assoc]

theorem all_preorder_mk (p : DrawTree → Bool) (x : ℚ) (y : ℕ) (m : ℚ)
    (nd : QTNode) (c0 c1 c2 c3 : DrawTree) :
    (preorder (DrawTree.mk x y m nd c0 c1 c2 c3)).all p =
      (p (DrawTree.mk x y m nd c0 c1 c2 c3) &&
        ((preorder c0).all p && ((preorder c1).all p &&
          ((preorder c2).all p && (preorder c3).all p)))) := by
  simp [preorder, List.all_append, Bool.and_assoc]

/-! ### Depth correctness (C6) -/

theorem tailA_depthsOK (x : ℚ) (depth : ℕ) (m : ℚ) (nd : QTNode)
    (c0' c1' c2' c3' : DrawTree) (a3 b3 : ℚ) (st : List ℚ) :
    depthsOK (tailA x depth m nd c0' c1' c2' c3' a3 b3 st).1 depth =
      (depthsOK c0' (depth + 1) && depthsOK c1' (depth + 1) &&
        depthsOK c2' (depth + 1) && depthsOK c3' (depth + 1)) := by
  unfold tailA
  split_ifs <;> simp [depthsOK]

theorem depthsOK_build (q : QTNode) (d : ℕ) :
    depthsOK (build q d) d = true := by
  induction q generalizing d with
  | empty => rfl
  | mk c0 c1 c2 c3 ih0 ih1 ih2 ih3 =>
    simp [build, depthsOK, ih0, ih1, ih2, ih3]

theorem depthsOK_assign (t : DrawTree) (d : ℕ) (nx : List ℚ) :
    depthsOK ((assign t d nx).1) d = true := by
  induction t generalizing d nx with
  | empty => rfl
  | mk x y m nd c0 c1 c2 c3 ih0 ih1 ih2 ih3 =>
    simp only [assign]
    rw [tailA_depthsOK]
    simp [ih0, ih1, ih2, ih3]

theorem depthsOK_adjust (t : DrawTree) (ms : ℚ) (d : ℕ) :
    depthsOK (adjust t ms) d = depthsOK t d := by
  induction t generalizing ms d with
  | empty => rfl
  | mk x y m nd c0 c1 c2 c3 ih0 ih1 ih2 ih3 =>
    simp [adjust, depthsOK, ih0, ih1, ih2, ih3]

theorem yList_mk (x : ℚ) (y : ℕ) (m : ℚ) (nd : QTNode)
    (c0 c1 c2 c3 : DrawTree) :
    yList (DrawTree.mk x y m nd c0 c1 c2 c3) =
      y :: (yList c0 ++ yList c1 ++ yList c2 ++ yList c3) := by
  simp [yList, preorder, DrawTree.y]

theorem yList_tailA (x : ℚ) (depth : ℕ) (m : ℚ) (nd : QTNode)
    (c0' c1' c2' c3' : DrawTree) (a3 b3 : ℚ) (st : List ℚ) :
    yList (tailA x depth m nd c0' c1' c2' c3' a3 b3 st).1 =
      depth :: (yList c0' ++ yList c1' ++ yList c2' ++ yList c3') := by
  unfold tailA
  split_ifs <;> simp [yList_mk]

theorem yList_assign (t : DrawTree) (d : ℕ) (nx : List ℚ)
    (h : depthsOK t d = true) : yList ((assign t d nx).1) = yList t := by
  induction t generalizing d nx with
  | empty => rfl
  | mk x y m nd c0 c1 c2 c3 ih0 ih1 ih2 ih3 =>
    simp only [depthsOK, Bool.and_eq_true, beq_iff_eq] at h
    obtain ⟨⟨⟨⟨hy, h0⟩, h1⟩, h2⟩, h3⟩ := h
    simp only [assign]
    rw [yList_tailA, yList_mk, hy,
      ih0 _ _ h0, ih1 _ _ h1, ih2 _ _ h2, ih3 _ _ h3]

theorem yList_adjust (t : DrawTree) (ms : ℚ) :
    yList (adjust t ms) = yList t := by
  induction t generalizing ms with
  | empty => rfl
  | mk x y m nd c0 c1 c2 c3 ih0 ih1 ih2 ih3 =>
    rw [adjust_mk, yList_mk, yList_mk, ih0, ih1, ih2, ih3]

/-! ### Mirror consistency (C8) -/

theorem tailA_consistent (x : ℚ) (depth : ℕ) (m : ℚ) (nd : QTNode)
    (c0' c1' c2' c3' : DrawTree) (a3 b3 : ℚ) (st : List ℚ)
    (q0 q1 q2 q3 : QTNode) :
    consistent (tailA x depth m nd c0' c1' c2' c3' a3 b3 st).1
        (QTNode.mk q0 q1 q2 q3) =
      (decide (nd = QTNode.mk q0 q1 q2 q3) && consistent c0' q0 &&
        consistent c1' q1 && consistent c2' q2 && consistent c3' q3) := by
  unfold tailA
  split_ifs <;> rfl

theorem consistent_build (q : QTNode) (d : ℕ) :
    consistent (build q d) q = true := by
  induction q generalizing d with
  | empty => rfl
  | mk c0 c1 c2 c3 ih0 ih1 ih2 ih3 =>
    simp [build, consistent, ih0, ih1, ih2, ih3]

theorem consistent_assign (t : DrawTree) (q : QTNode) (d : ℕ)
    (nx : List ℚ) (h : consistent t q = true) :
    consistent ((assign t d nx).1) q = true := by
  induction t generalizing q d nx with
  | empty =>
    cases q with
    | empty => rfl
    | mk q0 q1 q2 q3 => simp [consistent] at h
  | mk x y m nd c0 c1 c2 c3 ih0 ih1 ih2 ih3 =>
    cases q with
    | empty => simp [consistent] at h
    | mk q0 q1 q2 q3 =>
      simp only [consistent, Bool.and_eq_true] at h
      obtain ⟨⟨⟨⟨hn, h0⟩, h1⟩, h2⟩, h3⟩ := h
      simp only [assign]
      rw [tailA_consistent]
      simp [hn, ih0 _ _ _ h0, ih1 _ _ _ h1, ih2 _ _ _ h2, ih3 _ _ _ h3]

theorem consistent_adjust (t : DrawTree) (q : QTNode) (ms : ℚ) :
    consistent (adjust t ms) q = consistent t q := by
  induction t generalizing q ms with
  | empty => cases q <;> rfl
  | mk x y m nd c0 c1 c2 c3 ih0 ih1 ih2 ih3 =>
    cases q with
    | empty => rfl
    | mk q0 q1 q2 q3 => simp [adjust, consistent, ih0, ih1, ih2, ih3]

/-! ### Non-negative shifts and columns (C9, C10) -/

theorem modsNonneg_mk (x : ℚ) (y : ℕ) (m : ℚ) (nd : QTNode)
    (c0 c1 c2 c3 : DrawTree) :
    modsNonneg (DrawTree.mk x y m nd c0 c1 c2 c3) =
      (decide (0 ≤ m) && (modsNonneg c0 && (modsNonneg c1 &&
        (modsNonneg c2 && modsNonneg c3)))) := by
  unfold modsNonneg
  rw [all_preorder_mk]
  rfl

theorem modsNonneg_build (q : QTNode) (d : ℕ) :
    modsNonneg (build q d) = true := by
  induction q generalizing d with
  | empty => rfl
  | mk c0 c1 c2 c3 ih0 ih1 ih2 ih3 =>
    simp [build, modsNonneg_mk, ih0, ih1, ih2, ih3]

theorem tailA_mod_of_ge (x : ℚ) (depth : ℕ) (m : ℚ) (nd : QTNode)
    (c0' c1' c2' c3' : DrawTree) (a3 b3 : ℚ) (st : List ℚ) (hm : 0 ≤ m) :
    (fun n => decide (0 ≤ n.mod))
      (tailA x depth m nd c0' c1' c2' c3' a3 b3 st).1 = true := by
  simp only [decide_eq_true_eq]
  exact tailA_mod_nonneg x depth m nd c0' c1' c2' c3' a3 b3 st hm

theorem modsNonneg_assign (t : DrawTree) (d : ℕ) (nx : List ℚ)
    (h : modsNonneg t = true) : modsNonneg ((assign t d nx).1) = true := by
  induction t generalizing d nx with
  | empty => rfl
  | mk x y m nd c0 c1 c2 c3 ih0 ih1 ih2 ih3 =>
    rw [modsNonneg_mk] at h
    simp only [Bool.and_eq_true, decide_eq_true_eq] at h
    obtain ⟨hm, h0, h1, h2, h3⟩ := h
    simp only [assign]
    unfold modsNonneg
    rw [all_preorder_tailA]
    simp only [Bool.and_eq_true]
    exact ⟨tailA_mod_of_ge _ _ _ _ _ _ _ _ _ _ _ hm,
      ih0 _ _ h0, ih1 _ _ h1, ih2 _ _ h2, ih3 _ _ h3⟩

theorem xList_mk (x : ℚ) (y : ℕ) (m : ℚ) (nd : QTNode)
    (c0 c1 c2 c3 : DrawTree) :
    xList (DrawTree.mk x y m nd c0 c1 c2 c3) =
      x :: (xList c0 ++ xList c1 ++ xList c2 ++ xList c3) := by
  simp [xList, preorder, DrawTree.x]

theorem xList_adjust_ge (t : DrawTree) (ms : ℚ)
    (hm : modsNonneg t = true) (hms : 0 ≤ ms) :
    List.Forall₂ (· ≤ ·) (xList t) (xList (adjust t ms)) := by
  induction t generalizing ms with
  | empty => simp [xList, preorder]
  | mk x y m nd c0 c1 c2 c3 ih0 ih1 ih2 ih3 =>
    rw [modsNonneg_mk] at hm
    simp only [Bool.and_eq_true, decide_eq_true_eq] at hm
    obtain ⟨hm0, h0, h1, h2, h3⟩ := hm
    have hms' : 0 ≤ ms + m := by linarith
    rw [adjust_mk, xList_mk, xList_mk]
    exact List.Forall₂.cons (by linarith)
      (List.rel_append (List.rel_append (List.rel_append
        (ih0 _ h0 hms') (ih1 _ h1 hms')) (ih2 _ h2 hms')) (ih3 _ h3 hms'))

theorem tailA_x_nonneg (x : ℚ) (depth : ℕ) (m : ℚ) (nd : QTNode)
    (c0' c1' c2' c3' : DrawTree) (a3 b3 : ℚ) (st : List ℚ) (hx : 0 ≤ x) :
    0 ≤ (tailA x depth m nd c0' c1' c2' c3' a3 b3 st).1.x :=
  le_trans hx (tailA_x_ge x depth m nd c0' c1' c2' c3' a3 b3 st)

theorem xList_tailA (x : ℚ) (depth : ℕ) (m : ℚ) (nd : QTNode)
    (c0' c1' c2' c3' : DrawTree) (a3 b3 : ℚ) (st : List ℚ) :
    xList (tailA x depth m nd c0' c1' c2' c3' a3 b3 st).1 =
      (tailA x depth m nd c0' c1' c2' c3' a3 b3 st).1.x ::
        (xList c0' ++ xList c1' ++ xList c2' ++ xList c3') := by
  unfold tailA
  split_ifs <;> simp [xList_mk, DrawTree.x]

theorem xList_assign_nonneg (t : DrawTree) (d : ℕ) (nx : List ℚ)
    (h : ∀ k, 0 ≤ getN nx k) :
    (xList ((assign t d nx).1)).all (fun v => decide (0 ≤ v)) = true := by
  induction t generalizing d nx with
  | empty => rfl
  | mk x y m nd c0 c1 c2 c3 ih0 ih1 ih2 ih3 =>
    have hs : ∀ (l : List ℚ) (dd : ℕ) (v : ℚ), (∀ k, 0 ≤ getN l k) →
        0 ≤ v → ∀ k, 0 ≤ getN (setN l dd v) k := by
      intro l dd v hl hv k
      rw [getN_setN]
      split_ifs
      · exact hv
      · exact hl k
    have h0 : ∀ k, 0 ≤ getN (setN nx d (getN nx d + 2)) k :=
      hs nx d _ h (by have := h d; linarith)
    have h1 : ∀ k, 0 ≤ getN (assign c0 (d + 1)
        (setN nx d (getN nx d + 2))).2 k :=
      fun k => le_trans (h0 k) (assign_mono _ _ _ k)
    have h2 : ∀ k, 0 ≤ getN (assign c1 (d + 1) (assign c0 (d + 1)
        (setN nx d (getN nx d + 2))).2).2 k :=
      fun k => le_trans (h1 k) (assign_mono _ _ _ k)
    have h3 : ∀ k, 0 ≤ getN (assign c2 (d + 1) (assign c1 (d + 1)
        (assign c0 (d + 1) (setN nx d (getN nx d + 2))).2).2).2 k :=
      fun k => le_trans (h2 k) (assign_mono _ _ _ k)
    simp only [assign]
    rw [xList_tailA]
    simp only [List.all_cons, List.all_append, Bool.and_eq_true,
      decide_eq_true_eq]
    exact ⟨tailA_x_nonneg _ _ _ _ _ _ _ _ _ _ _ (h d),
      ⟨⟨⟨ih0 _ _ h0, ih1 _ _ h1⟩, ih2 _ _ h2⟩, ih3 _ _ h3⟩⟩

/-! ### Sibling spacing (amended C1) -/

theorem sibGapsOK_assign (t : DrawTree) (d : ℕ) (nx : List ℚ) :
    sibGapsOK ((assign t d nx).1) = true := by
  induction t generalizing d nx with
  | empty => rfl
  | mk x y m nd c0 c1 c2 c3 ih0 ih1 ih2 ih3 =>
    have gap01 : c0.isEmpty = false → c1.isEmpty = false →
        (assign c0 (d + 1) (setN nx d (getN nx d + 2))).1.x + 2 ≤
          (assign c1 (d + 1)
            (assign c0 (d + 1) (setN nx d (getN nx d + 2))).2).1.x :=
      fun h0 h1 => le_trans (assign_reserve _ _ _ h0) (assign_x_ge _ _ _ h1)
    have gap12 : c1.isEmpty = false → c2.isEmpty = false →
        (assign c1 (d + 1)
            (assign c0 (d + 1) (setN nx d (getN nx d + 2))).2).1.x + 2 ≤
          (assign c2 (d + 1) (assign c1 (d + 1)
            (assign c0 (d + 1) (setN nx d (getN nx d + 2))).2).2).1.x :=
      fun h1 h2 => le_trans (assign_reserve _ _ _ h1) (assign_x_ge _ _ _ h2)
    have gap23 : c2.isEmpty = false → c3.isEmpty = false →
        (assign c2 (d + 1) (assign c1 (d + 1)
            (assign c0 (d + 1) (setN nx d (getN nx d + 2))).2).2).1.x + 2 ≤
          (assign c3 (d + 1) (assign c2 (d + 1) (assign c1 (d + 1)
            (assign c0 (d + 1) (setN nx d (getN nx d + 2))).2).2).2).1.x :=
      fun h2 h3 => le_trans (assign_reserve _ _ _ h2) (assign_x_ge _ _ _ h3)
    have gap02 : c0.isEmpty = false → c2.isEmpty = false →
        (assign c0 (d + 1) (setN nx d (getN nx d + 2))).1.x + 2 ≤
          (assign c2 (d + 1) (assign c1 (d + 1)
            (assign c0 (d + 1) (setN nx d (getN nx d + 2))).2).2).1.x :=
      fun h0 h2 => le_trans (assign_reserve _ _ _ h0)
        (le_trans (assign_mono _ _ _ _) (assign_x_ge _ _ _ h2))
    have gap13 : c1.isEmpty = false → c3.isEmpty = false →
        (assign c1 (d + 1)
            (assign c0 (d + 1) (setN nx d (getN nx d + 2))).2).1.x + 2 ≤
          (assign c3 (d + 1) (assign c2 (d + 1) (assign c1 (d + 1)
            (assign c0 (d + 1) (setN nx d (getN nx d + 2))).2).2).2).1.x :=
      fun h1 h3 => le_trans (assign_reserve _ _ _ h1)
        (le_trans (assign_mono _ _ _ _) (assign_x_ge _ _ _ h3))
    have gap03 : c0.isEmpty = false → c3.isEmpty = false →
        (assign c0 (d + 1) (setN nx d (getN nx d + 2))).1.x + 2 ≤
          (assign c3 (d + 1) (assign c2 (d + 1) (assign c1 (d + 1)
            (assign c0 (d + 1) (setN nx d (getN nx d + 2))).2).2).2).1.x :=
      fun h0 h3 => le_trans (assign_reserve _ _ _ h0)
        (le_trans (assign_mono _ _ _ _)
          (le_trans (assign_mono _ _ _ _) (assign_x_ge _ _ _ h3)))
    simp only [assign]
    unfold sibGapsOK
    rw [all_preorder_tailA]
    simp only [Bool.and_eq_true]
    refine ⟨?_, ih0 _ _, ih1 _ _, ih2 _ _, ih3 _ _⟩
    rw [tailA_childXs]
    cases hc0 : c0.isEmpty <;> cases hc1 : c1.isEmpty <;>
      cases hc2 : c2.isEmpty <;> cases hc3 : c3.isEmpty <;>
      simp only [List.filter, assign_isEmpty, hc0, hc1, hc2, hc3,
        Bool.not_true, Bool.not_false, List.map, gap2, Bool.and_eq_true,
        decide_eq_true_eq, and_true] <;>
      and_intros <;>
      first
      | rfl
      | exact gap01 hc0 hc1
      | exact gap02 hc0 hc2
      | exact gap03 hc0 hc3
      | exact gap12 hc1 hc2
      | exact gap13 hc1 hc3
      | exact gap23 hc2 hc3

theorem gap2_map_add (l : List ℚ) (c : ℚ) :
    gap2 (l.map (· + c)) = gap2 l := by
  induction l with
  | nil => rfl
  | cons a t ih =>
    cases t with
    | nil => rfl
    | cons b t' =>
      have hab : (a + c + 2 ≤ b + c) = (a + 2 ≤ b) :=
        propext ⟨fun h => by linarith, fun h => by linarith⟩
      simp only [List.map_cons] at ih ⊢
      simp only [gap2, hab]
      rw [ih]

theorem sibGapsOK_adjust (t : DrawTree) (ms : ℚ) :
    sibGapsOK (adjust t ms) = sibGapsOK t := by
  induction t generalizing ms with
  | empty => rfl
  | mk x y m nd c0 c1 c2 c3 ih0 ih1 ih2 ih3 =>
    have hhead : gap2 ((adjust (DrawTree.mk x y m nd c0 c1 c2 c3) ms).childXs) =
        gap2 ((DrawTree.mk x y m nd c0 c1 c2 c3).childXs) := by
      rw [childXs_adjust, gap2_map_add]
    rw [adjust_mk] at hhead
    unfold sibGapsOK at ih0 ih1 ih2 ih3 ⊢
    rw [adjust_mk, all_preorder_mk, all_preorder_mk]
    simp only [hhead, ih0, ih1, ih2, ih3]

/-! ### Fold bridges between `stepMin`/`stepMax` and `childXs` -/

theorem foldl_min_seed (a v : ℚ) (vs : List ℚ) :
    List.foldl min (min a v) vs = min a (List.foldl min v vs) := by
  induction vs generalizing v with
  | nil => rfl
  | cons w ws ih =>
    simp only [List.foldl_cons, min_assoc]
    exact ih (min v w)

theorem foldl_max_seed (b v : ℚ) (vs : List ℚ) :
    List.foldl max (max b v) vs = max b (List.foldl max v vs) := by
  induction vs generalizing v with
  | nil => rfl
  | cons w ws ih =>
    simp only [List.foldl_cons, max_assoc]
    exact ih (max v w)

theorem foldl_min_le_init (v : ℚ) (vs : List ℚ) :
    List.foldl min v vs ≤ v := by
  induction vs generalizing v with
  | nil => exact le_refl _
  | cons w ws ih => exact le_trans (ih (min v w)) (min_le_left _ _)

theorem init_le_foldl_max (v : ℚ) (vs : List ℚ) :
    v ≤ List.foldl max v vs := by
  induction vs generalizing v with
  | nil => exact le_refl _
  | cons w ws ih => exact le_trans (le_max_left _ _) (ih (max v w))

theorem foldl_min_nonneg (v : ℚ) (vs : List ℚ)
    (h : ∀ w ∈ v :: vs, 0 ≤ w) : 0 ≤ List.foldl min v vs := by
  induction vs generalizing v with
  | nil => exact h v (List.mem_cons_self _ _)
  | cons w ws ih =>
    refine ih (min v w) ?_
    intro u hu
    rcases List.mem_cons.mp hu with hu | hu
    · subst hu
      exact le_min (h v (by simp)) (h w (by simp))
    · exact h u (by simp [hu])

theorem stepMin_fold (c0 c1 c2 c3 r0 r1 r2 r3 : DrawTree)
    (h0 : r0.isEmpty = c0.isEmpty) (h1 : r1.isEmpty = c1.isEmpty)
    (h2 : r2.isEmpty = c2.isEmpty) (h3 : r3.isEmpty = c3.isEmpty) :
    stepMin c3 r3 (stepMin c2 r2 (stepMin c1 r1 (stepMin c0 r0 99999))) =
      ((([r0, r1, r2, r3].filter (fun c => !c.isEmpty)).map
        DrawTree.x)).foldl min 99999 := by
  cases hc0 : c0.isEmpty <;> cases hc1 : c1.isEmpty <;>
    cases hc2 : c2.isEmpty <;> cases hc3 : c3.isEmpty <;>
    simp [stepMin, hc0, hc1, hc2, hc3, h0, h1, h2, h3, List.filter]

theorem stepMax_fold (c0 c1 c2 c3 r0 r1 r2 r3 : DrawTree)
    (h0 : r0.isEmpty = c0.isEmpty) (h1 : r1.isEmpty = c1.isEmpty)
    (h2 : r2.isEmpty = c2.isEmpty) (h3 : r3.isEmpty = c3.isEmpty) :
    stepMax c3 r3 (stepMax c2 r2 (stepMax c1 r1 (stepMax c0 r0 (-99999)))) =
      ((([r0, r1, r2, r3].filter (fun c => !c.isEmpty)).map
        DrawTree.x)).foldl max (-99999) := by
  cases hc0 : c0.isEmpty <;> cases hc1 : c1.isEmpty <;>
    cases hc2 : c2.isEmpty <;> cases hc3 : c3.isEmpty <;>
    simp [stepMax, hc0, hc1, hc2, hc3, h0, h1, h2, h3, List.filter]

/-! ### Centering invariant (amended C2) -/

theorem modsZero_mk (x : ℚ) (y : ℕ) (m : ℚ) (nd : QTNode)
    (c0 c1 c2 c3 : DrawTree) :
    modsZero (DrawTree.mk x y m nd c0 c1 c2 c3) =
      ((m == 0) && (modsZero c0 && (modsZero c1 &&
        (modsZero c2 && modsZero c3)))) := by
  unfold modsZero
  rw [all_preorder_mk]
  rfl

theorem modsZero_build (q : QTNode) (d : ℕ) :
    modsZero (build q d) = true := by
  induction q generalizing d with
  | empty => rfl
  | mk c0 c1 c2 c3 ih0 ih1 ih2 ih3 =>
    simp [build, modsZero_mk, ih0, ih1, ih2, ih3]

theorem tailA_ctrA (x : ℚ) (d : ℕ) (nd : QTNode) (r0 r1 r2 r3 : DrawTree)
    (A B : ℚ) (st : List ℚ)
    (hA : A = (([r0, r1, r2, r3].filter (fun c => !c.isEmpty)).map
      DrawTree.x).foldl min 99999)
    (hB : B = (([r0, r1, r2, r3].filter (fun c => !c.isEmpty)).map
      DrawTree.x).foldl max (-99999))
    (hnn : ∀ w ∈ ([r0, r1, r2, r3].filter (fun c => !c.isEmpty)).map
      DrawTree.x, 0 ≤ w)
    (hclip : (([r0, r1, r2, r3].filter (fun c => !c.isEmpty)).map
      DrawTree.x) = [] ∨ A ≠ 99999) :
    ctrA (tailA x d 0 nd r0 r1 r2 r3 A B st).1 = true := by
  rcases hxs : (([r0, r1, r2, r3].filter (fun c => !c.isEmpty)).map
      DrawTree.x) with _ | ⟨v, vs⟩
  · have hcx : (tailA x d 0 nd r0 r1 r2 r3 A B st).1.childXs = [] := by
      rw [tailA_childXs, hxs]
    unfold ctrA
    rw [hcx]
  · have hAF : A = min 99999 (List.foldl min v vs) := by
      rw [hA, hxs, List.foldl_cons, ← foldl_min_seed]
    have hBG : B = max (-99999) (List.foldl max v vs) := by
      rw [hB, hxs, List.foldl_cons, ← foldl_max_seed]
    have hF0 : 0 ≤ List.foldl min v vs := by
      refine foldl_min_nonneg v vs ?_
      rw [← hxs]
      exact hnn
    have hFv : List.foldl min v vs ≤ v := foldl_min_le_init v vs
    have hvG : v ≤ List.foldl max v vs := init_le_foldl_max v vs
    have hFG : List.foldl min v vs ≤ List.foldl max v vs :=
      le_trans hFv hvG
    have hBeq : B = List.foldl max v vs := by
      rw [hBG]
      exact max_eq_right (by linarith)
    have hclip' : A ≠ 99999 := by
      rcases hclip with h | h
      · rw [hxs] at h
        exact absurd h (List.cons_ne_nil _ _)
      · exact h
    have hAeq : A = List.foldl min v vs := by
      rcases lt_or_le (List.foldl min v vs) 99999 with h | h
      · rw [hAF]
        exact min_eq_right (le_of_lt h)
      · exact absurd (by rw [hAF]; exact min_eq_left h) hclip'
    have hcx : (tailA x d 0 nd r0 r1 r2 r3 A B st).1.childXs = v :: vs := by
      rw [tailA_childXs, hxs]
    unfold tailA at hcx ⊢
    rw [if_pos hclip'] at hcx ⊢
    split_ifs with hlt hgt
    · rw [if_pos hlt] at hcx
      unfold ctrA
      rw [hcx]
      simp only [DrawTree.x, DrawTree.mod, Bool.and_eq_true,
        decide_eq_true_eq]
      rw [hAeq, hBeq] at hlt
      constructor
      · rw [hAeq, hBeq]
        linarith
      · rw [hAeq, hBeq]
        linarith
    · rw [if_neg hlt, if_pos hgt] at hcx
      unfold ctrA
      rw [hcx]
      simp only [DrawTree.x, DrawTree.mod, Bool.and_eq_true,
        decide_eq_true_eq]
      rw [hAeq, hBeq]
      constructor
      · linarith
      · linarith
    · rw [if_neg hlt, if_neg hgt] at hcx
      unfold ctrA
      rw [hcx]
      simp only [DrawTree.x, DrawTree.mod, Bool.and_eq_true,
        decide_eq_true_eq]
      rw [hAeq, hBeq] at hlt hgt
      constructor
      · linarith
      · linarith

theorem centeredA_assign (t : DrawTree) (d : ℕ) (nx : List ℚ)
    (hm : modsZero t = true) (hnx : ∀ k, 0 ≤ getN nx k)
    (hclip : noClip ((assign t d nx).1) = true) :
    centeredA ((assign t d nx).1) = true := by
  induction t generalizing d nx with
  | empty => rfl
  | mk x y m nd c0 c1 c2 c3 ih0 ih1 ih2 ih3 =>
    rw [modsZero_mk] at hm
    simp only [Bool.and_eq_true, beq_iff_eq] at hm
    obtain ⟨hm0, hmz0, hmz1, hmz2, hmz3⟩ := hm
    subst hm0
    have hs : ∀ (l : List ℚ) (dd : ℕ) (v : ℚ), (∀ k, 0 ≤ getN l k) →
        0 ≤ v → ∀ k, 0 ≤ getN (setN l dd v) k := by
      intro l dd v hl hv k
      rw [getN_setN]
      split_ifs
      · exact hv
      · exact hl k
    have hn0 : ∀ k, 0 ≤ getN (setN nx d (getN nx d + 2)) k :=
      hs nx d _ hnx (by have := hnx d; linarith)
    have hn1 : ∀ k, 0 ≤ getN (assign c0 (d + 1)
        (setN nx d (getN nx d + 2))).2 k :=
      fun k => le_trans (hn0 k) (assign_mono _ _ _ k)
    have hn2 : ∀ k, 0 ≤ getN (assign c1 (d + 1) (assign c0 (d + 1)
        (setN nx d (getN nx d + 2))).2).2 k :=
      fun k => le_trans (hn1 k) (assign_mono _ _ _ k)
    have hn3 : ∀ k, 0 ≤ getN (assign c2 (d + 1) (assign c1 (d + 1)
        (assign c0 (d + 1) (setN nx d (getN nx d + 2))).2).2).2 k :=
      fun k => le_trans (hn2 k) (assign_mono _ _ _ k)
    simp only [assign] at hclip ⊢
    unfold noClip at hclip
    rw [all_preorder_tailA] at hclip
    simp only [Bool.and_eq_true] at hclip
    obtain ⟨hcHead, hc0, hc1, hc2, hc3⟩ := hclip
    unfold centeredA
    rw [all_preorder_tailA]
    simp only [Bool.and_eq_true]
    have he0 : (assign c0 (d + 1) (setN nx d (getN nx d + 2))).1.isEmpty =
        c0.isEmpty := assign_isEmpty _ _ _
    have he1 : (assign c1 (d + 1) (assign c0 (d + 1)
        (setN nx d (getN nx d + 2))).2).1.isEmpty = c1.isEmpty :=
      assign_isEmpty _ _ _
    have he2 : (assign c2 (d + 1) (assign c1 (d + 1) (assign c0 (d + 1)
        (setN nx d (getN nx d + 2))).2).2).1.isEmpty = c2.isEmpty :=
      assign_isEmpty _ _ _
    have he3 : (assign c3 (d + 1) (assign c2 (d + 1) (assign c1 (d + 1)
        (assign c0 (d + 1)
          (setN nx d (getN nx d + 2))).2).2).2).1.isEmpty = c3.isEmpty :=
      assign_isEmpty _ _ _
    have hnn : ∀ w ∈ ([(assign c0 (d + 1) (setN nx d (getN nx d + 2))).1,
        (assign c1 (d + 1)
          (assign c0 (d + 1) (setN nx d (getN nx d + 2))).2).1,
        (assign c2 (d + 1) (assign c1 (d + 1) (assign c0 (d + 1)
          (setN nx d (getN nx d + 2))).2).2).1,
        (assign c3 (d + 1) (assign c2 (d + 1) (assign c1 (d + 1)
          (assign c0 (d + 1)
            (setN nx d (getN nx d + 2))).2).2).2).1].filter
        (fun c => !c.isEmpty)).map DrawTree.x, 0 ≤ w := by
      intro w hw
      simp only [List.mem_map, List.mem_filter] at hw
      obtain ⟨u, ⟨hu, hue⟩, rfl⟩ := hw
      have hue' : u.isEmpty = false := by
        cases hh : u.isEmpty
        · rfl
        · rw [hh] at hue
          exact absurd hue (by simp)
      rcases List.mem_cons.mp hu with rfl | hu
      · exact le_trans (hn0 (d + 1))
          (assign_x_ge _ _ _ (by rw [← he0]; exact hue'))
      rcases List.mem_cons.mp hu with rfl | hu
      · exact le_trans (hn1 (d + 1))
          (assign_x_ge _ _ _ (by rw [← he1]; exact hue'))
      rcases List.mem_cons.mp hu with rfl | hu
      · exact le_trans (hn2 (d + 1))
          (assign_x_ge _ _ _ (by rw [← he2]; exact hue'))
      rcases List.mem_cons.mp hu with rfl | hu
      · exact le_trans (hn3 (d + 1))
          (assign_x_ge _ _ _ (by rw [← he3]; exact hue'))
      · exact absurd hu (List.not_mem_nil _)
    refine ⟨?_, ih0 _ _ hmz0 hn0 hc0, ih1 _ _ hmz1 hn1 hc1,
      ih2 _ _ hmz2 hn2 hc2, ih3 _ _ hmz3 hn3 hc3⟩
    · refine tailA_ctrA _ _ _ _ _ _ _ _ _ _
        (stepMin_fold _ _ _ _ _ _ _ _ he0 he1 he2 he3)
        (stepMax_fold _ _ _ _ _ _ _ _ he0 he1 he2 he3) hnn ?_
      rw [tailA_childXs] at hcHead
      simp only [Bool.or_eq_true, decide_eq_true_eq,
        List.isEmpty_eq_true] at hcHead
      rw [stepMin_fold _ _ _ _ _ _ _ _ he0 he1 he2 he3]
      exact hcHead

theorem centeredOK_adjust (t : DrawTree) (ms : ℚ) :
    centeredOK (adjust t ms) = centeredA t := by
  induction t generalizing ms with
  | empty => rfl
  | mk x y m nd c0 c1 c2 c3 ih0 ih1 ih2 ih3 =>
    have hhead := ctr_adjust (DrawTree.mk x y m nd c0 c1 c2 c3) ms
    rw [adjust_mk] at hhead
    unfold centeredOK centeredA at ih0 ih1 ih2 ih3 ⊢
    rw [adjust_mk, all_preorder_mk, all_preorder_mk]
    simp only [hhead, ih0, ih1, ih2, ih3]

/-! ### Pass 2 as a path shift (C3) -/

theorem child_adjust (t : DrawTree) (ms : ℚ) (i : ℕ) :
    (adjust t ms).child i = adjust (t.child i) (ms + t.mod) := by
  cases t <;> rcases i with _ | _ | _ | i <;> rfl

theorem follow_adjust (p : List ℕ) (t : DrawTree) (ms : ℚ)
    (h : (follow t p).isEmpty = false) :
    (follow (adjust t ms) p).x = (follow t p).x + ms + pathMods t p := by
  induction p generalizing t ms with
  | nil =>
    unfold follow pathMods
    rw [x_adjust t ms h]
    ring
  | cons i p ih =>
    have hfc : ∀ (u : DrawTree) (j : ℕ) (pp : List ℕ),
        follow u (j :: pp) = follow (u.child j) pp := fun _ _ _ => rfl
    have hpc : ∀ (u : DrawTree) (j : ℕ) (pp : List ℕ),
        pathMods u (j :: pp) = u.mod + pathMods (u.child j) pp :=
      fun _ _ _ => rfl
    have h' : (follow (t.child i) p).isEmpty = false := h
    rw [hfc (adjust t ms) i p, child_adjust, ih (t.child i) (ms + t.mod) h',
      hfc t i p, hpc t i p]
    ring

theorem all_nonneg_of_forall₂ (l1 l2 : List ℚ)
    (hf : List.Forall₂ (· ≤ ·) l1 l2)
    (h : l1.all (fun v => decide (0 ≤ v)) = true) :
    l2.all (fun v => decide (0 ≤ v)) = true := by
  induction hf with
  | nil => rfl
  | cons hab htl ih =>
    simp only [List.all_cons, Bool.and_eq_true, decide_eq_true_eq] at h ⊢
    exact ⟨by linarith [h.1], ih h.2⟩

/-! ### Claim theorems -/

/-- C1 (counterexample): the claim "after a complete layout run, for
every pair of nodes at the same depth that are consecutive in
quadrant-traversal order, the later node's final column is at least the
earlier one's plus 2" is false on the code: on the 9-node tree `cexC1`
the depth-3 columns in traversal order are `[2, 3, 5]`, whose first gap
is only 1. -/
theorem claim_c1_counterexample :
    gap2 (atDepth (layout cexC1) 3) = false := by decide

/-- C1 (amended): after a complete layout run, for every pair of nodes
that are consecutive occupied children of one common parent (hence at
the same depth, consecutive in quadrant-traversal order among that
parent's children), the later node's final column is at least the
earlier one's plus 2.  The unrestricted per-depth statement fails
(`claim_c1_counterexample`): nodes of different parents can end closer
than 2. -/
theorem claim_c1_sibling_spacing (q : QTNode) :
    sibGapsOK (layout q) = true := by
  unfold layout
  rw [sibGapsOK_adjust]
  exact sibGapsOK_assign _ _ _

/-- C2 (amended): for every domain tree whose Pass-1 result never hits
the `99999` sentinel (no node's children-minimum fold equals `99999`),
every node with at least one child ends with its column inside the
inclusive interval of its children's final columns; with a single child
the interval is degenerate, so the column equals the child's.  The
unrestricted claim fails on huge trees (`claim_c2_counterexample`). -/
theorem claim_c2_centering (q : QTNode)
    (h : noClip (assigned q) = true) : centeredOK (layout q) = true := by
  unfold layout
  rw [centeredOK_adjust]
  refine centeredA_assign _ _ _ (modsZero_build q 0) ?_ h
  intro k
  rw [getN_nil]

/-- Witness for `claim_c2_centering` at Scenario B's tree. -/
theorem claim_c2_centering_witness :
    noClip (assigned scenarioB) = true ∧
      centeredOK (layout scenarioB) = true :=
  ⟨by decide, claim_c2_centering scenarioB (by decide)⟩

/-- C3: every node's final column equals its column at the end of the
assignment pass plus the sum of the `mod` (pendingShift) values of its
strict ancestors in the assigned tree; in particular the node's own
`mod` is not added to itself, and each ancestor's shift enters the sum
exactly once. -/
theorem claim_c3_adjust_shift (q : QTNode) (p : List ℕ)
    (h : (follow (assigned q) p).isEmpty = false) :
    (follow (layout q) p).x =
      (follow (assigned q) p).x + pathMods (assigned q) p := by
  unfold layout
  rw [follow_adjust p (assigned q) 0 h]
  ring

/-- Witness for `claim_c3_adjust_shift`: in Scenario D's tree the node
at path NE, SW has a positive ancestor shift. -/
theorem claim_c3_witness :
    (follow (assigned scenarioD) [1, 2]).isEmpty = false ∧
      (follow (layout scenarioD) [1, 2]).x =
        (follow (assigned scenarioD) [1, 2]).x +
          pathMods (assigned scenarioD) [1, 2] :=
  ⟨by decide, claim_c3_adjust_shift scenarioD [1, 2] (by decide)⟩

/-- C4: on a root with children only at NW and SE, layout puts the NW
child at column 0 and depth 1, the SE child at column 2 and depth 1,
and the root at column 1 (the exact midpoint) and depth 0. -/
theorem claim_c4_scenario_b :
    ((layout scenarioB).child NW).x = 0 ∧
      ((layout scenarioB).child NW).y = 1 ∧
      ((layout scenarioB).child SE).x = 2 ∧
      ((layout scenarioB).child SE).y = 1 ∧
      (layout scenarioB).x = 1 ∧ (layout scenarioB).y = 0 := by decide

/-- C5: `layout` is deterministic — on equal domain trees, two
invocations (each building a fresh mirror) produce equal results, in
particular identical column values everywhere. -/
theorem claim_c5_determinism (q1 q2 : QTNode) (h : q1 = q2) :
    layout q1 = layout q2 := by rw [h]

/-- Witness for `claim_c5_determinism` at Scenario B's tree. -/
theorem claim_c5_determinism_witness :
    scenarioB = scenarioB ∧ layout scenarioB = layout scenarioB :=
  ⟨rfl, claim_c5_determinism scenarioB scenarioB rfl⟩

/-- C6: after a complete layout run every node's `y` equals its number
of edges from the root (root 0, each child one more), and the depths
after the run are exactly the depths fixed at construction: neither
pass changed any of them. -/
theorem claim_c6_depths (q : QTNode) :
    depthsOK (layout q) 0 = true ∧ yList (layout q) = yList (build q 0) := by
  constructor
  · unfold layout
    rw [depthsOK_adjust]
    exact depthsOK_assign _ _ _
  · unfold layout assigned
    rw [yList_adjust, yList_assign _ _ _ (depthsOK_build q 0)]

/-- C7: the frontier dictionary starts at 0 for every depth (the empty
dictionary reads 0 everywhere), and one assignment pass — hence every
nested recursive call it makes, since the statement quantifies over all
subtrees and states — never decreases any depth's entry. -/
theorem claim_c7_frontier_monotone :
    (∀ k, getN [] k = 0) ∧
      ∀ (t : DrawTree) (d : ℕ) (nx : List ℚ) (k : ℕ),
        getN nx k ≤ getN (assign t d nx).2 k :=
  ⟨getN_nil, assign_mono⟩

/-- C8: building the mirror and running both passes is a pure function
of the domain tree: in the laid-out tree, every node's `node` field is
still the very domain subtree it was built from (so the domain tree is
unchanged), and the mirror occupies exactly the domain tree's quadrant
slots at every level. -/
theorem claim_c8_no_mutation (q : QTNode) :
    consistent (layout q) q = true := by
  unfold layout assigned
  rw [consistent_adjust]
  exact consistent_assign _ _ _ _ (consistent_build q 0)

/-- C9: after the assignment pass every `mod` (pendingShift) is
non-negative, and consequently the adjustment pass never moves a
column left: node by node (in traversal order), the final column is at
least the column at the end of Pass 1. -/
theorem claim_c9_nonneg_shifts (q : QTNode) :
    modsNonneg (assigned q) = true ∧
      List.Forall₂ (· ≤ ·) (xList (assigned q)) (xList (layout q)) := by
  have hm : modsNonneg (assigned q) = true :=
    modsNonneg_assign _ _ _ (modsNonneg_build q 0)
  exact ⟨hm, xList_adjust_ge _ _ hm (le_refl 0)⟩

/-- C10: after a complete layout run every node's final column is
non-negative: no node is placed left of the origin. -/
theorem claim_c10_nonneg_columns (q : QTNode) :
    (xList (layout q)).all (fun v => decide (0 ≤ v)) = true := by
  have h1 : (xList (assigned q)).all (fun v => decide (0 ≤ v)) = true := by
    unfold assigned
    refine xList_assign_nonneg _ _ _ ?_
    intro k
    rw [getN_nil]
  have hm : modsNonneg (assigned q) = true :=
    modsNonneg_assign _ _ _ (modsNonneg_build q 0)
  exact all_nonneg_of_forall₂ _ _ (xList_adjust_ge _ _ hm (le_refl 0)) h1

/-! ### Clean-regime closed form of `assign` on full subtrees -/

theorem dlt_zero (j : ℕ) : dlt j 0 = 0 := by
  unfold dlt
  simp

theorem dlt_succ (j i : ℕ) : dlt (j + 1) (i + 1) = 3 * 4 ^ j + dlt j i := by
  unfold dlt
  rw [Nat.succ_sub_succ, pow_succ]
  ring

theorem one_le_pow4 (j : ℕ) : (1 : ℚ) ≤ 4 ^ j := by
  induction j with
  | zero => norm_num
  | succ j ih =>
    rw [pow_succ]
    nlinarith

theorem build_full_nonempty (j d : ℕ) :
    (build (full j) d).isEmpty = false := by
  cases j <;> rfl

theorem assign_leaf (dd : ℕ) (stt : List ℚ) :
    assign (build leafQ dd) dd stt =
      (.mk (getN stt dd) dd 0 leafQ .empty .empty .empty .empty,
        setN stt dd (getN stt dd + 2)) := by
  show assign (.mk (-1) dd 0 (.mk .empty .empty .empty .empty)
    .empty .empty .empty .empty) dd stt = _
  simp only [assign]
  unfold stepMin stepMax tailA
  simp [DrawTree.isEmpty, leafQ]

theorem stepMin_cons (c r : DrawTree) (a : ℚ) (h : c.isEmpty = false) :
    stepMin c r a = min a r.x := by
  unfold stepMin
  rw [h]
  rfl

theorem stepMax_cons (c r : DrawTree) (b : ℚ) (h : c.isEmpty = false) :
    stepMax c r b = max b r.x := by
  unfold stepMax
  rw [h]
  rfl

theorem tailA_center_fst (x : ℚ) (d : ℕ) (m : ℚ) (nd : QTNode)
    (r0 r1 r2 r3 : DrawTree) (A B : ℚ) (st : List ℚ)
    (h1 : A < 99999) (h2 : x < (A + B) / 2) :
    (tailA x d m nd r0 r1 r2 r3 A B st).1 =
      .mk ((A + B) / 2) d m nd r0 r1 r2 r3 := by
  unfold tailA
  rw [if_pos (ne_of_lt h1), if_neg (not_lt.mpr (le_of_lt h2)), if_pos h2]

theorem tailA_center_snd (x : ℚ) (d : ℕ) (m : ℚ) (nd : QTNode)
    (r0 r1 r2 r3 : DrawTree) (A B : ℚ) (st : List ℚ)
    (h1 : A < 99999) (h2 : x < (A + B) / 2) :
    (tailA x d m nd r0 r1 r2 r3 A B st).2 =
      setN st d (max (getN st d + 2) ((A + B) / 2 + 2)) := by
  unfold tailA
  rw [if_pos (ne_of_lt h1), if_neg (not_lt.mpr (le_of_lt h2)), if_pos h2]

theorem assign_full_aligned (j : ℕ) :
    ∀ (d : ℕ) (c : ℚ) (nx : List ℚ),
      0 ≤ c →
      c + 3 * 4 ^ j ≤ 100007 →
      (∀ i, i ≤ j → getN nx (d + i) = c + dlt j i) →
      (assign (build (full j) d) d nx).1.x = c + 2 * 4 ^ j - 2 ∧
        (∀ i, i ≤ j →
          getN (assign (build (full j) d) d nx).2 (d + i) =
            c + 2 * 4 ^ j + dlt j i) ∧
        (∀ k, k < d ∨ d + j < k →
          getN (assign (build (full j) d) d nx).2 k = getN nx k) := by
  induction j with
  | zero =>
    intro d c nx hc hb hal
    have h0 : getN nx d = c := by
      have h := hal 0 (le_refl 0)
      rwa [Nat.add_zero, dlt_zero, add_zero] at h
    rw [show full 0 = leafQ from rfl, assign_leaf]
    refine ⟨?_, ?_, ?_⟩
    · simp only [DrawTree.x, h0]
      norm_num
    · intro i hi
      have hi0 : i = 0 := Nat.le_zero.mp hi
      subst hi0
      rw [Nat.add_zero, getN_setN, if_pos rfl, h0, dlt_zero]
      norm_num
    · intro k hk
      rw [getN_setN]
      split_ifs with hkd
      · exact absurd hkd (by omega)
      · rfl
  | succ j ih =>
    intro d c nx hc hb hal
    have h4 : (1 : ℚ) ≤ 4 ^ j := one_le_pow4 j
    have hps : (4 : ℚ) ^ (j + 1) = 4 * 4 ^ j := by
      rw [pow_succ]
      ring
    have hb' : c + 12 * 4 ^ j ≤ 100007 := by
      rw [hps] at hb
      linarith
    have hxv : getN nx d = c := by
      have h := hal 0 (Nat.zero_le _)
      rwa [Nat.add_zero, dlt_zero, add_zero] at h
    have hne : (build (full j) (d + 1)).isEmpty = false :=
      build_full_nonempty j (d + 1)
    have hal0 : ∀ i, i ≤ j →
        getN (setN nx d (getN nx d + 2)) ((d + 1) + i) =
          (c + 3 * 4 ^ j) + dlt j i := by
      intro i hi
      rw [getN_setN, if_neg (by omega)]
      have he : (d + 1) + i = d + (i + 1) := by omega
      rw [he, hal (i + 1) (by omega), dlt_succ]
      ring
    obtain ⟨hx0, hs0, hu0⟩ := ih (d + 1) (c + 3 * 4 ^ j)
      (setN nx d (getN nx d + 2)) (by linarith) (by linarith) hal0
    have hal1 : ∀ i, i ≤ j →
        getN (assign (build (full j) (d + 1)) (d + 1)
          (setN nx d (getN nx d + 2))).2 ((d + 1) + i) =
          (c + 5 * 4 ^ j) + dlt j i := by
      intro i hi
      rw [hs0 i hi]
      ring
    obtain ⟨hx1, hs1, hu1⟩ := ih (d + 1) (c + 5 * 4 ^ j) _
      (by linarith) (by linarith) hal1
    have hal2 : ∀ i, i ≤ j →
        getN (assign (build (full j) (d + 1)) (d + 1)
          (assign (build (full j) (d + 1)) (d + 1)
            (setN nx d (getN nx d + 2))).2).2 ((d + 1) + i) =
          (c + 7 * 4 ^ j) + dlt j i := by
      intro i hi
      rw [hs1 i hi]
      ring
    obtain ⟨hx2, hs2, hu2⟩ := ih (d + 1) (c + 7 * 4 ^ j) _
      (by linarith) (by linarith) hal2
    have hal3 : ∀ i, i ≤ j →
        getN (assign (build (full j) (d + 1)) (d + 1)
          (assign (build (full j) (d + 1)) (d + 1)
            (assign (build (full j) (d + 1)) (d + 1)
              (setN nx d (getN nx d + 2))).2).2).2 ((d + 1) + i) =
          (c + 9 * 4 ^ j) + dlt j i := by
      intro i hi
      rw [hs2 i hi]
      ring
    obtain ⟨hx3, hs3, hu3⟩ := ih (d + 1) (c + 9 * 4 ^ j) _
      (by linarith) (by linarith) hal3
    rw [show full (j + 1) =
      QTNode.mk (full j) (full j) (full j) (full j) from rfl]
    rw [show build (QTNode.mk (full j) (full j) (full j) (full j)) d =
      DrawTree.mk (-1) d 0 (QTNode.mk (full j) (full j) (full j) (full j))
        (build (full j) (d + 1)) (build (full j) (d + 1))
        (build (full j) (d + 1)) (build (full j) (d + 1)) from rfl]
    simp only [assign]
    rw [stepMin_cons _ _ _ hne, stepMin_cons _ _ _ hne,
      stepMin_cons _ _ _ hne, stepMin_cons _ _ _ hne,
      stepMax_cons _ _ _ hne, stepMax_cons _ _ _ hne,
      stepMax_cons _ _ _ hne, stepMax_cons _ _ _ hne,
      hx0, hx1, hx2, hx3]
    rw [min_eq_right (by linarith : (c + 3 * 4 ^ j) + 2 * 4 ^ j - 2 ≤ 99999),
      min_eq_left (by linarith : (c + 3 * 4 ^ j) + 2 * 4 ^ j - 2 ≤
        (c + 5 * 4 ^ j) + 2 * 4 ^ j - 2),
      min_eq_left (by linarith : (c + 3 * 4 ^ j) + 2 * 4 ^ j - 2 ≤
        (c + 7 * 4 ^ j) + 2 * 4 ^ j - 2),
      min_eq_left (by linarith : (c + 3 * 4 ^ j) + 2 * 4 ^ j - 2 ≤
        (c + 9 * 4 ^ j) + 2 * 4 ^ j - 2),
      max_eq_right (by linarith : (-99999 : ℚ) ≤
        (c + 3 * 4 ^ j) + 2 * 4 ^ j - 2),
      max_eq_right (by linarith : (c + 3 * 4 ^ j) + 2 * 4 ^ j - 2 ≤
        (c + 5 * 4 ^ j) + 2 * 4 ^ j - 2),
      max_eq_right (by linarith : (c + 5 * 4 ^ j) + 2 * 4 ^ j - 2 ≤
        (c + 7 * 4 ^ j) + 2 * 4 ^ j - 2),
      max_eq_right (by linarith : (c + 7 * 4 ^ j) + 2 * 4 ^ j - 2 ≤
        (c + 9 * 4 ^ j) + 2 * 4 ^ j - 2)]
    have hAlt : (c + 3 * 4 ^ j) + 2 * 4 ^ j - 2 < 99999 := by linarith
    have hmid : getN nx d <
        (((c + 3 * 4 ^ j) + 2 * 4 ^ j - 2) +
          ((c + 9 * 4 ^ j) + 2 * 4 ^ j - 2)) / 2 := by
      rw [hxv]
      linarith
    rw [tailA_center_fst _ _ _ _ _ _ _ _ _ _ _ hAlt hmid,
      tailA_center_snd _ _ _ _ _ _ _ _ _ _ _ hAlt hmid]
    have hsd : getN (assign (build (full j) (d + 1)) (d + 1)
        (assign (build (full j) (d + 1)) (d + 1)
          (assign (build (full j) (d + 1)) (d + 1)
            (assign (build (full j) (d + 1)) (d + 1)
              (setN nx d (getN nx d + 2))).2).2).2).2 d = c + 2 := by
      rw [hu3 d (Or.inl (by omega)), hu2 d (Or.inl (by omega)),
        hu1 d (Or.inl (by omega)), hu0 d (Or.inl (by omega)),
        getN_setN, if_pos rfl, hxv]
    refine ⟨?_, ?_, ?_⟩
    · simp only [DrawTree.x]
      rw [hps]
      ring
    · intro i hi
      by_cases hi0 : i = 0
      · subst hi0
        rw [getN_setN]
        split_ifs with hdd
        · rw [hsd, dlt_zero, max_eq_right (by linarith), hps]
          ring
        · exact absurd (by omega) hdd
      · obtain ⟨i', rfl⟩ : ∃ i', i = i' + 1 := ⟨i - 1, by omega⟩
        rw [getN_setN]
        split_ifs with hdd
        · exact absurd hdd (by omega)
        · have he : d + (i' + 1) = (d + 1) + i' := by omega
          rw [he, hs3 i' (by omega), dlt_succ, hps]
          ring
    · intro k hk
      rw [getN_setN]
      split_ifs with hdd
      · exact absurd hdd (by omega)
      · rw [hu3 k (hk.imp (fun h => by omega) (fun h => by omega)),
          hu2 k (hk.imp (fun h => by omega) (fun h => by omega)),
          hu1 k (hk.imp (fun h => by omega) (fun h => by omega)),
          hu0 k (hk.imp (fun h => by omega) (fun h => by omega)),
          getN_setN, if_neg hdd]

theorem assign_full_zeros (j : ℕ) :
    ∀ (d : ℕ) (nx : List ℚ),
      (4 : ℚ) ^ j ≤ 25000 →
      (∀ i, i ≤ j → getN nx (d + i) = 0) →
      (assign (build (full j) d) d nx).1.x = 4 ^ j - 1 ∧
        (∀ i, i ≤ j →
          getN (assign (build (full j) d) d nx).2 (d + i) =
            (4 ^ j + 1) + dlt j i) ∧
        (∀ k, k < d ∨ d + j < k →
          getN (assign (build (full j) d) d nx).2 k = getN nx k) := by
  induction j with
  | zero =>
    intro d nx hsz hal
    have h0 : getN nx d = 0 := by
      have h := hal 0 (le_refl 0)
      rwa [Nat.add_zero] at h
    rw [show full 0 = leafQ from rfl, assign_leaf]
    refine ⟨?_, ?_, ?_⟩
    · simp only [DrawTree.x, h0]
      norm_num
    · intro i hi
      have hi0 : i = 0 := Nat.le_zero.mp hi
      subst hi0
      rw [Nat.add_zero, getN_setN, if_pos rfl, h0, dlt_zero]
      norm_num
    · intro k hk
      rw [getN_setN]
      split_ifs with hkd
      · exact absurd hkd (by omega)
      · rfl
  | succ j ih =>
    intro d nx hsz hal
    have h4 : (1 : ℚ) ≤ 4 ^ j := one_le_pow4 j
    have hps : (4 : ℚ) ^ (j + 1) = 4 * 4 ^ j := by
      rw [pow_succ]
      ring
    have hsz' : (4 : ℚ) ^ j ≤ 6250 := by
      rw [hps] at hsz
      linarith
    have hxv : getN nx d = 0 := by
      have h := hal 0 (Nat.zero_le _)
      rwa [Nat.add_zero] at h
    have hne : (build (full j) (d + 1)).isEmpty = false :=
      build_full_nonempty j (d + 1)
    have hal0 : ∀ i, i ≤ j →
        getN (setN nx d (getN nx d + 2)) ((d + 1) + i) = 0 := by
      intro i hi
      rw [getN_setN, if_neg (by omega)]
      have he : (d + 1) + i = d + (i + 1) := by omega
      rw [he, hal (i + 1) (by omega)]
    obtain ⟨hx0, hs0, hu0⟩ := ih (d + 1) (setN nx d (getN nx d + 2))
      (by linarith) hal0
    have hal1 : ∀ i, i ≤ j →
        getN (assign (build (full j) (d + 1)) (d + 1)
          (setN nx d (getN nx d + 2))).2 ((d + 1) + i) =
          (4 ^ j + 1) + dlt j i := by
      intro i hi
      rw [hs0 i hi]
    obtain ⟨hx1, hs1, hu1⟩ := assign_full_aligned j (d + 1) (4 ^ j + 1) _
      (by linarith) (by linarith) hal1
    have hal2 : ∀ i, i ≤ j →
        getN (assign (build (full j) (d + 1)) (d + 1)
          (assign (build (full j) (d + 1)) (d + 1)
            (setN nx d (getN nx d + 2))).2).2 ((d + 1) + i) =
          (3 * 4 ^ j + 1) + dlt j i := by
      intro i hi
      rw [hs1 i hi]
      ring
    obtain ⟨hx2, hs2, hu2⟩ := assign_full_aligned j (d + 1) (3 * 4 ^ j + 1) _
      (by linarith) (by linarith) hal2
    have hal3 : ∀ i, i ≤ j →
        getN (assign (build (full j) (d + 1)) (d + 1)
          (assign (build (full j) (d + 1)) (d + 1)
            (assign (build (full j) (d + 1)) (d + 1)
              (setN nx d (getN nx d + 2))).2).2).2 ((d + 1) + i) =
          (5 * 4 ^ j + 1) + dlt j i := by
      intro i hi
      rw [hs2 i hi]
      ring
    obtain ⟨hx3, hs3, hu3⟩ := assign_full_aligned j (d + 1) (5 * 4 ^ j + 1) _
      (by linarith) (by linarith) hal3
    rw [show full (j + 1) =
      QTNode.mk (full j) (full j) (full j) (full j) from rfl]
    rw [show build (QTNode.mk (full j) (full j) (full j) (full j)) d =
      DrawTree.mk (-1) d 0 (QTNode.mk (full j) (full j) (full j) (full j))
        (build (full j) (d + 1)) (build (full j) (d + 1))
        (build (full j) (d + 1)) (build (full j) (d + 1)) from rfl]
    simp only [assign]
    rw [stepMin_cons _ _ _ hne, stepMin_cons _ _ _ hne,
      stepMin_cons _ _ _ hne, stepMin_cons _ _ _ hne,
      stepMax_cons _ _ _ hne, stepMax_cons _ _ _ hne,
      stepMax_cons _ _ _ hne, stepMax_cons _ _ _ hne,
      hx0, hx1, hx2, hx3]
    rw [min_eq_right (by linarith : (4:ℚ) ^ j - 1 ≤ 99999),
      min_eq_left (by linarith : (4:ℚ) ^ j - 1 ≤
        (4 ^ j + 1) + 2 * 4 ^ j - 2),
      min_eq_left (by linarith : (4:ℚ) ^ j - 1 ≤
        (3 * 4 ^ j + 1) + 2 * 4 ^ j - 2),
      min_eq_left (by linarith : (4:ℚ) ^ j - 1 ≤
        (5 * 4 ^ j + 1) + 2 * 4 ^ j - 2),
      max_eq_right (by linarith : (-99999 : ℚ) ≤ 4 ^ j - 1),
      max_eq_right (by linarith : (4:ℚ) ^ j - 1 ≤
        (4 ^ j + 1) + 2 * 4 ^ j - 2),
      max_eq_right (by linarith : ((4:ℚ) ^ j + 1) + 2 * 4 ^ j - 2 ≤
        (3 * 4 ^ j + 1) + 2 * 4 ^ j - 2),
      max_eq_right (by linarith : (3 * (4:ℚ) ^ j + 1) + 2 * 4 ^ j - 2 ≤
        (5 * 4 ^ j + 1) + 2 * 4 ^ j - 2)]
    have hAlt : (4:ℚ) ^ j - 1 < 99999 := by linarith
    have hmid : getN nx d <
        ((4 ^ j - 1) + ((5 * 4 ^ j + 1) + 2 * 4 ^ j - 2)) / 2 := by
      rw [hxv]
      linarith
    rw [tailA_center_fst _ _ _ _ _ _ _ _ _ _ _ hAlt hmid,
      tailA_center_snd _ _ _ _ _ _ _ _ _ _ _ hAlt hmid]
    have hsd : getN (assign (build (full j) (d + 1)) (d + 1)
        (assign (build (full j) (d + 1)) (d + 1)
          (assign (build (full j) (d + 1)) (d + 1)
            (assign (build (full j) (d + 1)) (d + 1)
              (setN nx d (getN nx d + 2))).2).2).2).2 d = 2 := by
      rw [hu3 d (Or.inl (by omega)), hu2 d (Or.inl (by omega)),
        hu1 d (Or.inl (by omega)), hu0 d (Or.inl (by omega)),
        getN_setN, if_pos rfl, hxv]
      norm_num
    refine ⟨?_, ?_, ?_⟩
    · simp only [DrawTree.x]
      rw [hps]
      ring
    · intro i hi
      by_cases hi0 : i = 0
      · subst hi0
        rw [getN_setN]
        split_ifs with hdd
        · rw [hsd, dlt_zero, max_eq_right (by linarith), hps]
          ring
        · exact absurd (by omega) hdd
      · obtain ⟨i', rfl⟩ : ∃ i', i = i' + 1 := ⟨i - 1, by omega⟩
        rw [getN_setN]
        split_ifs with hdd
        · exact absurd hdd (by omega)
        · have he : d + (i' + 1) = (d + 1) + i' := by omega
          rw [he, hs3 i' (by omega), dlt_succ, hps]
          ring
    · intro k hk
      rw [getN_setN]
      split_ifs with hdd
      · exact absurd hdd (by omega)
      · rw [hu3 k (hk.imp (fun h => by omega) (fun h => by omega)),
          hu2 k (hk.imp (fun h => by omega) (fun h => by omega)),
          hu1 k (hk.imp (fun h => by omega) (fun h => by omega)),
          hu0 k (hk.imp (fun h => by omega) (fun h => by omega)),
          getN_setN, if_neg hdd]

/-! ### The sentinel clip in the full height-8 tree -/

theorem assign_mk_eq (x0 : ℚ) (y0 : ℕ) (m : ℚ) (nd : QTNode)
    (c0 c1 c2 c3 : DrawTree) (depth : ℕ) (nexts : List ℚ) :
    assign (.mk x0 y0 m nd c0 c1 c2 c3) depth nexts =
      tailA (getN nexts depth) depth m nd
        (assign c0 (depth + 1) (setN nexts depth (getN nexts depth + 2))).1
        (assign c1 (depth + 1) (assign c0 (depth + 1)
          (setN nexts depth (getN nexts depth + 2))).2).1
        (assign c2 (depth + 1) (assign c1 (depth + 1) (assign c0 (depth + 1)
          (setN nexts depth (getN nexts depth + 2))).2).2).1
        (assign c3 (depth + 1) (assign c2 (depth + 1) (assign c1 (depth + 1)
          (assign c0 (depth + 1)
            (setN nexts depth (getN nexts depth + 2))).2).2).2).1
        (stepMin c3 (assign c3 (depth + 1) (assign c2 (depth + 1)
            (assign c1 (depth + 1) (assign c0 (depth + 1)
              (setN nexts depth (getN nexts depth + 2))).2).2).2).1
          (stepMin c2 (assign c2 (depth + 1) (assign c1 (depth + 1)
              (assign c0 (depth + 1)
                (setN nexts depth (getN nexts depth + 2))).2).2).1
            (stepMin c1 (assign c1 (depth + 1) (assign c0 (depth + 1)
                (setN nexts depth (getN nexts depth + 2))).2).1
              (stepMin c0 (assign c0 (depth + 1)
                (setN nexts depth (getN nexts depth + 2))).1 99999))))
        (stepMax c3 (assign c3 (depth + 1) (assign c2 (depth + 1)
            (assign c1 (depth + 1) (assign c0 (depth + 1)
              (setN nexts depth (getN nexts depth + 2))).2).2).2).1
          (stepMax c2 (assign c2 (depth + 1) (assign c1 (depth + 1)
              (assign c0 (depth + 1)
                (setN nexts depth (getN nexts depth + 2))).2).2).1
            (stepMax c1 (assign c1 (depth + 1) (assign c0 (depth + 1)
                (setN nexts depth (getN nexts depth + 2))).2).1
              (stepMax c0 (assign c0 (depth + 1)
                (setN nexts depth (getN nexts depth + 2))).1 (-99999)))))
        (assign c3 (depth + 1) (assign c2 (depth + 1) (assign c1 (depth + 1)
          (assign c0 (depth + 1)
            (setN nexts depth (getN nexts depth + 2))).2).2).2).2 := rfl

theorem clip_step (st : List ℚ) (h7 : getN st 7 = 99997)
    (h8 : getN st 8 = 100000) :
    (assign (build (full 1) 7) 7 st).1 = clipNode := by
  have hbl : (build leafQ 8).isEmpty = false := rfl
  rw [show build (full 1) 7 = DrawTree.mk (-1) 7 0 (full 1)
    (build leafQ 8) (build leafQ 8) (build leafQ 8) (build leafQ 8) from rfl]
  rw [assign_mk_eq]
  rw [show (7 : ℕ) + 1 = 8 from rfl]
  simp only [assign_leaf]
  have g0 : getN (setN st 7 (getN st 7 + 2)) 8 = 100000 := by
    rw [getN_setN, if_neg (show ¬((8 : ℕ) = 7) by decide), h8]
  have g1 : getN (setN (setN st 7 (getN st 7 + 2)) 8
      (getN (setN st 7 (getN st 7 + 2)) 8 + 2)) 8 = 100002 := by
    rw [getN_setN, if_pos rfl, g0]
    norm_num
  have g2 : getN (setN (setN (setN st 7 (getN st 7 + 2)) 8
      (getN (setN st 7 (getN st 7 + 2)) 8 + 2)) 8
      (getN (setN (setN st 7 (getN st 7 + 2)) 8
        (getN (setN st 7 (getN st 7 + 2)) 8 + 2)) 8 + 2)) 8 = 100004 := by
    rw [getN_setN, if_pos rfl, g1]
    norm_num
  have g3 : getN (setN (setN (setN (setN st 7 (getN st 7 + 2)) 8
      (getN (setN st 7 (getN st 7 + 2)) 8 + 2)) 8
      (getN (setN (setN st 7 (getN st 7 + 2)) 8
        (getN (setN st 7 (getN st 7 + 2)) 8 + 2)) 8 + 2)) 8
      (getN (setN (setN (setN st 7 (getN st 7 + 2)) 8
        (getN (setN st 7 (getN st 7 + 2)) 8 + 2)) 8
        (getN (setN (setN st 7 (getN st 7 + 2)) 8
          (getN (setN st 7 (getN st 7 + 2)) 8 + 2)) 8 + 2)) 8 + 2)) 8 =
      100006 := by
    rw [getN_setN, if_pos rfl, g2]
    norm_num
  rw [g3, g2, g1, g0, h7]
  rw [stepMin_cons _ _ _ hbl, stepMin_cons _ _ _ hbl,
    stepMin_cons _ _ _ hbl, stepMin_cons _ _ _ hbl,
    stepMax_cons _ _ _ hbl, stepMax_cons _ _ _ hbl,
    stepMax_cons _ _ _ hbl, stepMax_cons _ _ _ hbl]
  simp only [DrawTree.x]
  rw [show min (min (min (min (99999 : ℚ) 100000) 100002) 100004) 100006 =
    99999 by norm_num [min_def]]
  unfold tailA
  rw [if_neg (show ¬((99999 : ℚ) ≠ 99999) by norm_num)]
  rfl

theorem clip_mem_h2 (st : List ℚ)
    (hal : ∀ i, i ≤ 2 → getN st (6 + i) = 99985 + dlt 2 i) :
    clipNode ∈ preorder (assign (build (full 2) 6) 6 st).1 := by
  rw [show build (full 2) 6 = DrawTree.mk (-1) 6 0 (full 2)
    (build (full 1) 7) (build (full 1) 7) (build (full 1) 7)
    (build (full 1) 7) from rfl]
  rw [assign_mk_eq, show (6 : ℕ) + 1 = 7 from rfl]
  have h7 : getN (setN st 6 (getN st 6 + 2)) 7 = 99997 := by
    rw [getN_setN, if_neg (show ¬((7 : ℕ) = 6) by decide)]
    have h := hal 1 (by omega)
    rw [show (6 : ℕ) + 1 = 7 from rfl] at h
    rw [h]
    norm_num [dlt]
  have h8 : getN (setN st 6 (getN st 6 + 2)) 8 = 100000 := by
    rw [getN_setN, if_neg (show ¬((8 : ℕ) = 6) by decide)]
    have h := hal 2 (by omega)
    rw [show (6 : ℕ) + 2 = 8 from rfl] at h
    rw [h]
    norm_num [dlt]
  refine tailA_mem _ _ _ _ _ _ _ _ _ _ _ _ (Or.inl ?_)
  rw [clip_step _ h7 h8]
  exact mem_preorder_self clipNode rfl

theorem clip_mem_h3 (st : List ℚ)
    (hal : ∀ i, i ≤ 3 → getN st (5 + i) = 99905 + dlt 3 i) :
    clipNode ∈ preorder (assign (build (full 3) 5) 5 st).1 := by
  rw [show build (full 3) 5 = DrawTree.mk (-1) 5 0 (full 3)
    (build (full 2) 6) (build (full 2) 6) (build (full 2) 6)
    (build (full 2) 6) from rfl]
  rw [assign_mk_eq, show (5 : ℕ) + 1 = 6 from rfl]
  have hal0 : ∀ i, i ≤ 2 →
      getN (setN st 5 (getN st 5 + 2)) (6 + i) = (99953 : ℚ) + dlt 2 i := by
    intro i hi
    rw [getN_setN, if_neg (by omega)]
    have h := hal (i + 1) (by omega)
    rw [show (5 : ℕ) + (i + 1) = 6 + i from by omega] at h
    rw [h, dlt_succ]
    ring
  obtain ⟨hx0, hs0, hu0⟩ := assign_full_aligned 2 6 99953 _
    (by norm_num) (by norm_num) hal0
  have hal1 : ∀ i, i ≤ 2 →
      getN (assign (build (full 2) 6) 6
        (setN st 5 (getN st 5 + 2))).2 (6 + i) = (99985 : ℚ) + dlt 2 i := by
    intro i hi
    rw [hs0 i hi]
    norm_num
  refine tailA_mem _ _ _ _ _ _ _ _ _ _ _ _ (Or.inr (Or.inl ?_))
  exact clip_mem_h2 _ hal1

theorem clip_mem_h4 (st : List ℚ)
    (hal : ∀ i, i ≤ 4 → getN st (4 + i) = 99585 + dlt 4 i) :
    clipNode ∈ preorder (assign (build (full 4) 4) 4 st).1 := by
  rw [show build (full 4) 4 = DrawTree.mk (-1) 4 0 (full 4)
    (build (full 3) 5) (build (full 3) 5) (build (full 3) 5)
    (build (full 3) 5) from rfl]
  rw [assign_mk_eq, show (4 : ℕ) + 1 = 5 from rfl]
  have hal0 : ∀ i, i ≤ 3 →
      getN (setN st 4 (getN st 4 + 2)) (5 + i) = (99777 : ℚ) + dlt 3 i := by
    intro i hi
    rw [getN_setN, if_neg (by omega)]
    have h := hal (i + 1) (by omega)
    rw [show (4 : ℕ) + (i + 1) = 5 + i from by omega] at h
    rw [h, dlt_succ]
    ring
  obtain ⟨hx0, hs0, hu0⟩ := assign_full_aligned 3 5 99777 _
    (by norm_num) (by norm_num) hal0
  have hal1 : ∀ i, i ≤ 3 →
      getN (assign (build (full 3) 5) 5
        (setN st 4 (getN st 4 + 2))).2 (5 + i) = (99905 : ℚ) + dlt 3 i := by
    intro i hi
    rw [hs0 i hi]
    norm_num
  refine tailA_mem _ _ _ _ _ _ _ _ _ _ _ _ (Or.inr (Or.inl ?_))
  exact clip_mem_h3 _ hal1

theorem clip_mem_h5 (st : List ℚ)
    (hal : ∀ i, i ≤ 5 → getN st (3 + i) = 97281 + dlt 5 i) :
    clipNode ∈ preorder (assign (build (full 5) 3) 3 st).1 := by
  rw [show build (full 5) 3 = DrawTree.mk (-1) 3 0 (full 5)
    (build (full 4) 4) (build (full 4) 4) (build (full 4) 4)
    (build (full 4) 4) from rfl]
  rw [assign_mk_eq, show (3 : ℕ) + 1 = 4 from rfl]
  have hal0 : ∀ i, i ≤ 4 →
      getN (setN st 3 (getN st 3 + 2)) (4 + i) = (98049 : ℚ) + dlt 4 i := by
    intro i hi
    rw [getN_setN, if_neg (by omega)]
    have h := hal (i + 1) (by omega)
    rw [show (3 : ℕ) + (i + 1) = 4 + i from by omega] at h
    rw [h, dlt_succ]
    ring
  obtain ⟨hx0, hs0, hu0⟩ := assign_full_aligned 4 4 98049 _
    (by norm_num) (by norm_num) hal0
  have hal1 : ∀ i, i ≤ 4 →
      getN (assign (build (full 4) 4) 4
        (setN st 3 (getN st 3 + 2))).2 (4 + i) = (98561 : ℚ) + dlt 4 i := by
    intro i hi
    rw [hs0 i hi]
    norm_num
  obtain ⟨hx1, hs1, hu1⟩ := assign_full_aligned 4 4 98561 _
    (by norm_num) (by norm_num) hal1
  have hal2 : ∀ i, i ≤ 4 →
      getN (assign (build (full 4) 4) 4 (assign (build (full 4) 4) 4
        (setN st 3 (getN st 3 + 2))).2).2 (4 + i) =
        (99073 : ℚ) + dlt 4 i := by
    intro i hi
    rw [hs1 i hi]
    norm_num
  obtain ⟨hx2, hs2, hu2⟩ := assign_full_aligned 4 4 99073 _
    (by norm_num) (by norm_num) hal2
  have hal3 : ∀ i, i ≤ 4 →
      getN (assign (build (full 4) 4) 4 (assign (build (full 4) 4) 4
        (assign (build (full 4) 4) 4
          (setN st 3 (getN st 3 + 2))).2).2).2 (4 + i) =
        (99585 : ℚ) + dlt 4 i := by
    intro i hi
    rw [hs2 i hi]
    norm_num
  refine tailA_mem _ _ _ _ _ _ _ _ _ _ _ _ (Or.inr (Or.inr (Or.inr ?_)))
  exact clip_mem_h4 _ hal3

theorem clip_mem_h6 (st : List ℚ)
    (hal : ∀ i, i ≤ 6 → getN st (2 + i) = 94209 + dlt 6 i) :
    clipNode ∈ preorder (assign (build (full 6) 2) 2 st).1 := by
  rw [show build (full 6) 2 = DrawTree.mk (-1) 2 0 (full 6)
    (build (full 5) 3) (build (full 5) 3) (build (full 5) 3)
    (build (full 5) 3) from rfl]
  rw [assign_mk_eq, show (2 : ℕ) + 1 = 3 from rfl]
  have hal0 : ∀ i, i ≤ 5 →
      getN (setN st 2 (getN st 2 + 2)) (3 + i) = (97281 : ℚ) + dlt 5 i := by
    intro i hi
    rw [getN_setN, if_neg (by omega)]
    have h := hal (i + 1) (by omega)
    rw [show (2 : ℕ) + (i + 1) = 3 + i from by omega] at h
    rw [h, dlt_succ]
    ring
  refine tailA_mem _ _ _ _ _ _ _ _ _ _ _ _ (Or.inl ?_)
  exact clip_mem_h5 _ hal0

theorem clip_mem_h7 (st : List ℚ)
    (hal : ∀ i, i ≤ 7 → getN st (1 + i) = 81921 + dlt 7 i) :
    clipNode ∈ preorder (assign (build (full 7) 1) 1 st).1 := by
  rw [show build (full 7) 1 = DrawTree.mk (-1) 1 0 (full 7)
    (build (full 6) 2) (build (full 6) 2) (build (full 6) 2)
    (build (full 6) 2) from rfl]
  rw [assign_mk_eq, show (1 : ℕ) + 1 = 2 from rfl]
  have hal0 : ∀ i, i ≤ 6 →
      getN (setN st 1 (getN st 1 + 2)) (2 + i) = (94209 : ℚ) + dlt 6 i := by
    intro i hi
    rw [getN_setN, if_neg (by omega)]
    have h := hal (i + 1) (by omega)
    rw [show (1 : ℕ) + (i + 1) = 2 + i from by omega] at h
    rw [h, dlt_succ]
    ring
  refine tailA_mem _ _ _ _ _ _ _ _ _ _ _ _ (Or.inl ?_)
  exact clip_mem_h6 _ hal0

theorem assigned_def (q : QTNode) : assigned q = (assign (build q 0) 0 []).1 :=
  rfl

theorem layout_def (q : QTNode) : layout q = adjust (assigned q) 0 :=
  rfl

theorem centeredA_false_of_mem (t u : DrawTree) (hu : u ∈ preorder t)
    (hc : ctrA u = false) : centeredA t = false := by
  unfold centeredA
  rw [List.all_eq_false]
  exact ⟨u, hu, by simp [hc]⟩

theorem clip_mem_root : clipNode ∈ preorder (assigned (full 8)) := by
  rw [assigned_def]
  rw [show build (full 8) 0 = DrawTree.mk (-1) 0 0 (full 8)
    (build (full 7) 1) (build (full 7) 1) (build (full 7) 1)
    (build (full 7) 1) from rfl]
  rw [assign_mk_eq, show (0 : ℕ) + 1 = 1 from rfl]
  have hal0 : ∀ i, i ≤ 7 →
      getN (setN [] 0 (getN [] 0 + 2)) (1 + i) = 0 := by
    intro i hi
    rw [getN_setN, if_neg (by omega), getN_nil]
  obtain ⟨hx0, hs0, hu0⟩ := assign_full_zeros 7 1 _ (by norm_num) hal0
  have hal1 : ∀ i, i ≤ 7 →
      getN (assign (build (full 7) 1) 1
        (setN [] 0 (getN [] 0 + 2))).2 (1 + i) = (16385 : ℚ) + dlt 7 i := by
    intro i hi
    rw [hs0 i hi]
    norm_num
  obtain ⟨hx1, hs1, hu1⟩ := assign_full_aligned 7 1 16385 _
    (by norm_num) (by norm_num) hal1
  have hal2 : ∀ i, i ≤ 7 →
      getN (assign (build (full 7) 1) 1 (assign (build (full 7) 1) 1
        (setN [] 0 (getN [] 0 + 2))).2).2 (1 + i) =
        (49153 : ℚ) + dlt 7 i := by
    intro i hi
    rw [hs1 i hi]
    norm_num
  obtain ⟨hx2, hs2, hu2⟩ := assign_full_aligned 7 1 49153 _
    (by norm_num) (by norm_num) hal2
  have hal3 : ∀ i, i ≤ 7 →
      getN (assign (build (full 7) 1) 1 (assign (build (full 7) 1) 1
        (assign (build (full 7) 1) 1
          (setN [] 0 (getN [] 0 + 2))).2).2).2 (1 + i) =
        (81921 : ℚ) + dlt 7 i := by
    intro i hi
    rw [hs2 i hi]
    norm_num
  refine tailA_mem _ _ _ _ _ _ _ _ _ _ _ _ (Or.inr (Or.inr (Or.inr ?_)))
  exact clip_mem_h7 _ hal3

/-- C2 (counterexample): the unrestricted centering claim is false on
the code: on the full height-8 quadtree (87381 nodes), Pass 1's
frontier passes the in-band sentinel `99999`, the node at path
NW-quadrant sequence `clipPath` keeps column 99997 with `mod = 0`
although its children's final columns start at 100000, so after the
full run its column lies outside its children's interval. -/
theorem claim_c2_counterexample : centeredOK (layout (full 8)) = false := by
  rw [layout_def, centeredOK_adjust]
  exact centeredA_false_of_mem _ _ clip_mem_root (by decide)
